import Mathlib

/-!
Verification of the 2048 game engine and its two agents (a TD-learning
agent with n-tuple networks, and an expectimax search agent) against the
repository's natural-language specification.

The Python sources are shallowly embedded: the mutable `Game` object of
`game.py` becomes an immutable structure, each mutating method becomes a
function returning the updated game (and, for moves, the score delta),
Python exceptions become `Except`, and the two random draws of
`spawn_tile` become explicit parameters.  Tile values are `Nat` (Python
ints are unbounded; all game values are non-negative), learned weights
are `ℚ` (idealising Python floats, whose rounding plays no role in the
claims below).
-/

/- ============================================================
   game.py — the board engine
   ============================================================ -/

/-- Embedding of the `Game` class of `game.py`: the board (a list of
rows, each a list of tile values), the cumulative score and the grid
size (`size = 4` by default; every row has length `size`). -/
structure Game where
  board : List (List Nat)
  score : Nat
  size : Nat
deriving Repr, DecidableEq

/-- The merge scan of `Game.move_left` (`game.py` lines 168-180): walk the
zero-free list `row_values` left to right; whenever two adjacent values are
equal, output their double, add it to the score delta and skip both
(`tile_index += 2`), otherwise output the value unchanged.  The same loop
appears verbatim in `move_up`, and reversed in `move_right`/`move_down`. -/
def merge_pass : List Nat → List Nat × Nat
  | [] => ([], 0)
  | [a] => ([a], 0)
  | a :: b :: rest =>
    if a = b then
      ((a * 2) :: (merge_pass rest).1, (merge_pass rest).2 + a * 2)
    else
      (a :: (merge_pass (b :: rest)).1, (merge_pass (b :: rest)).2)

/-- One row of `Game.move_left`: drop zeros (`row_values = [n for n in row
if n != 0]`), run the merge scan, and place the results at the left end of
a fresh all-zero row of length `size`.  Returns the new row and the score
gained on this row. -/
def move_left_row (size : Nat) (row : List Nat) : List Nat × Nat :=
  let vals := row.filter (fun n => n != 0)
  ((merge_pass vals).1 ++ List.replicate (size - (merge_pass vals).1.length) 0,
   (merge_pass vals).2)

/-- One row of `Game.move_right` (`game.py` lines 195-216): drop zeros,
scan from the right end comparing with the left neighbour, and fill a
fresh row from the right.  The right-to-left scan over `row_values` is the
left-to-right merge scan over the reversed list, with the outputs written
back right to left. -/
def move_right_row (size : Nat) (row : List Nat) : List Nat × Nat :=
  let vals := row.filter (fun n => n != 0)
  (List.replicate (size - (merge_pass vals.reverse).1.length) 0 ++
     (merge_pass vals.reverse).1.reverse,
   (merge_pass vals.reverse).2)

/-- `Game.move_left` (`game.py` lines 153-185): apply `move_left_row` to
every row, add the total gained to the score, and return the new game
together with the points gained (`new_score`). -/
def Game.move_left (g : Game) : Game × Nat :=
  let results := g.board.map (move_left_row g.size)
  let total := (results.map Prod.snd).sum
  ({ g with board := results.map Prod.fst, score := g.score + total }, total)

/-- `Game.move_right` (`game.py` lines 187-219). -/
def Game.move_right (g : Game) : Game × Nat :=
  let results := g.board.map (move_right_row g.size)
  let total := (results.map Prod.snd).sum
  ({ g with board := results.map Prod.fst, score := g.score + total }, total)

/-- Column `y` of the board, as read by `move_up`/`move_down` and
`get_legal_moves` (`col = [row[y] for row in self.board]`); out-of-range
reads (impossible on a well-formed board) default to 0. -/
def Game.column (g : Game) (y : Nat) : List Nat :=
  g.board.map (fun row => row.getD y 0)

/-- `Game.move_up` (`game.py` lines 221-256): for every column, run the
same drop-zeros-merge-and-pad loop as `move_left` (lines 238-250 repeat
lines 168-180 verbatim on `col_values`), then write the new column back
cell by cell (`self.board[j][y] = new_col[j]` for all `j < size`), which
on a well-formed `size × size` board rebuilds the whole board from the
moved columns. -/
def Game.move_up (g : Game) : Game × Nat :=
  let results := (List.range g.size).map (fun y => move_left_row g.size (g.column y))
  let total := (results.map Prod.snd).sum
  let newBoard := (List.range g.size).map (fun j =>
    (List.range g.size).map (fun y => ((results.getD y ([], 0)).1).getD j 0))
  ({ g with board := newBoard, score := g.score + total }, total)

/-- `Game.move_down` (`game.py` lines 258-288): `move_right`'s bottom-up
scan applied to every column, written back cell by cell. -/
def Game.move_down (g : Game) : Game × Nat :=
  let results := (List.range g.size).map (fun y => move_right_row g.size (g.column y))
  let total := (results.map Prod.snd).sum
  let newBoard := (List.range g.size).map (fun j =>
    (List.range g.size).map (fun y => ((results.getD y ([], 0)).1).getD j 0))
  ({ g with board := newBoard, score := g.score + total }, total)

/-- The four move directions (the strings "LEFT", "RIGHT", "UP", "DOWN"). -/
inductive Direction | LEFT | RIGHT | UP | DOWN
deriving Repr, DecidableEq

/-- Dispatch a direction to the corresponding move method, as done by all
callers of the engine (`Game.play`, `compute_afterstate`,
`generateSuccessor`). -/
def apply_move (d : Direction) (g : Game) : Game × Nat :=
  match d with
  | .LEFT => g.move_left
  | .RIGHT => g.move_right
  | .UP => g.move_up
  | .DOWN => g.move_down

/-- The per-row test of `get_legal_moves` for LEFT (`game.py` lines
90-94): some adjacent pair `(row[x], row[x+1])` is a zero followed by a
non-zero, or two equal non-zero values.  `row.zip row.tail` enumerates
exactly the pairs `(row[x], row[x+1])` for `x < len(row) - 1`. -/
def rowCanLeft (row : List Nat) : Bool :=
  (row.zip row.tail).any (fun p =>
    (p.1 == 0 && p.2 != 0) || (p.1 != 0 && p.1 == p.2))

/-- The per-row test of `get_legal_moves` for RIGHT (`game.py` lines
102-106): scanning pairs `(row[x-1], row[x])` from the right, some `row[x]`
is a zero preceded by a non-zero, or two equal non-zero values.  (Which
end the scan starts from does not matter for the existence test.) -/
def rowCanRight (row : List Nat) : Bool :=
  (row.zip row.tail).any (fun p =>
    (p.2 == 0 && p.1 != 0) || (p.2 != 0 && p.2 == p.1))

/-- `Game.get_legal_moves` (`game.py` lines 81-139): the set of directions
whose scan (rows for LEFT/RIGHT, columns for UP/DOWN) finds a movable
pair.  A Python `set` is modelled as a duplicate-free list; the embedding
is a pure function, so the source's property of not mutating the board is
inherent. -/
def Game.get_legal_moves (g : Game) : List Direction :=
  (if g.board.any rowCanLeft then [Direction.LEFT] else []) ++
  (if g.board.any rowCanRight then [Direction.RIGHT] else []) ++
  (if (List.range g.size).any (fun i => rowCanLeft (g.column i)) then [Direction.UP] else []) ++
  (if (List.range g.size).any (fun i => rowCanRight (g.column i)) then [Direction.DOWN] else [])

/-- `Game.is_game_over` (`game.py` lines 141-151): no legal move remains. -/
def Game.is_game_over (g : Game) : Bool :=
  g.get_legal_moves.isEmpty

/-- Python exception classes relevant to the engine.  `valueError` models
the built-in `ValueError` actually raised by `game.py` (line 79) and by
`compute_afterstate` on an unknown action; `invalidStateError` models the
`InvalidStateError` named by the spec's error taxonomy, a class that
appears nowhere in the source — it is included so that the spec's claim
about it can be stated and compared with what the code raises. -/
inductive PyError
  | valueError (msg : String)
  | invalidStateError (msg : String)
deriving Repr, DecidableEq

/-- `Game.get_empty_tiles` (`game.py` lines 52-65): the positions `(x, y)`
with `board[x][y] == 0`, in row-major order. -/
def Game.get_empty_tiles (g : Game) : List (Nat × Nat) :=
  (List.range g.board.length).flatMap (fun x =>
    (List.range ((g.board.getD x []).length)).filterMap (fun y =>
      if (g.board.getD x []).getD y 0 = 0 then some (x, y) else none))

/-- The assignment `self.board[x][y] = v`. -/
def set_tile (b : List (List Nat)) (x y v : Nat) : List (List Nat) :=
  b.set x ((b.getD x []).set y v)

/-- `Game.spawn_tile` (`game.py` lines 67-79).  The two random draws are
explicit parameters: `coin` is true when `random.random() < 0.9` (the 90%
branch placing a 2, otherwise a 4), and `pick` indexes the empty tile
chosen by `random.choice` (callers instantiate it below the list length).
On a full board the code raises `ValueError("Cannot add new tile: board
is full.")`. -/
def Game.spawn_tile (g : Game) (coin : Bool) (pick : Nat) : Except PyError Game :=
  let new_tile := if coin then 2 else 4
  let empty_tiles := g.get_empty_tiles
  if empty_tiles ≠ [] then
    .ok { g with board := set_tile g.board (empty_tiles.getD pick (0, 0)).1
                    (empty_tiles.getD pick (0, 0)).2 new_tile }
  else
    .error (.valueError "Cannot add new tile: board is full.")

/-- Modelled from the spec: `Game.copy`.  `game.py` defines no `copy()`
method even though every agent calls `state.copy()` (`compute_afterstate`,
`rotate`, `mirror`, `generateSuccessor`, `make_move`); only its callers
exist in the source.  The spec says `copy()` deep-clones board contents
and score, which for an immutable embedding is componentwise identity. -/
def Game.copy (g : Game) : Game :=
  { board := g.board, score := g.score, size := g.size }

/-- Total of all tile values on the board (the measure used by the spec's
tile-conservation property). -/
def board_sum (g : Game) : Nat :=
  (g.board.map List.sum).sum

/-- Every non-zero cell is a power of two (the spec's board invariant). -/
def all_pow2 (g : Game) : Prop :=
  ∀ row ∈ g.board, ∀ x ∈ row, x ≠ 0 → ∃ k, x = 2 ^ k

/- ============================================================
   tdlearningagent.py — the TD-learning agent
   ============================================================ -/

/-- An n-tuple: an ordered list of board coordinates. -/
abbrev Ntuple := List (Nat × Nat)

/-- The eight 6-tuples of `TdLearningAgent.__init__`
(`tdlearningagent.py` lines 12-21). -/
def ntuples : List Ntuple :=
  [[(0, 0), (0, 1), (0, 2), (1, 0), (1, 1), (1, 2)],
   [(0, 1), (0, 2), (1, 1), (1, 2), (2, 1), (3, 1)],
   [(0, 0), (0, 1), (0, 2), (0, 3), (1, 0), (1, 1)],
   [(0, 0), (0, 1), (1, 1), (1, 2), (1, 3), (2, 2)],
   [(0, 0), (0, 1), (0, 2), (1, 1), (2, 1), (2, 2)],
   [(0, 0), (0, 1), (1, 1), (2, 1), (3, 1), (3, 2)],
   [(0, 0), (0, 1), (1, 1), (2, 0), (2, 1), (3, 1)],
   [(0, 0), (0, 1), (0, 2), (1, 0), (1, 2), (2, 2)]]

/-- The learning state of `TdLearningAgent`.  The per-n-tuple Python dict
`LUT[ntuple][feature]` with lazy zero-insertion (`evaluate_feature` lines
167-168) is modelled as a total function defaulting to 0: inserting a
missing key with value 0 and then reading it is the identity on the
values this function represents, so the lazy insertion needs no separate
state.  Weights are `ℚ`, idealising Python floats. -/
structure TdLearningAgent where
  LUT : Ntuple → List Nat → ℚ
  learning_rate : ℚ

/-- A freshly constructed agent: empty tables (all weights 0) and
`learning_rate = 0.1`. -/
def TdLearningAgent.fresh : TdLearningAgent :=
  { LUT := fun _ _ => 0, learning_rate := 1 / 10 }

/-- One clockwise quarter turn of a board, the loop body of
`TdLearningAgent.rotate` (line 77): `[list(reversed(col)) for col in
zip(*board)]`.  For the rectangular boards of this game, `zip(*board)`
enumerates the columns, indexed up to the length of the first row. -/
def rotate_once (b : List (List Nat)) : List (List Nat) :=
  (List.range (b.getD 0 []).length).map (fun i => (b.map (fun row => row.getD i 0)).reverse)

/-- `TdLearningAgent.rotate` (`tdlearningagent.py` lines 67-78): copy the
game and turn its board clockwise `n` times. -/
def rotate (g : Game) (n : Nat) : Game :=
  { g.copy with board := rotate_once^[n] g.copy.board }

/-- `TdLearningAgent.mirror` (`tdlearningagent.py` lines 80-89): copy the
game and reverse the order of its rows (`board[::-1]`). -/
def mirror (g : Game) : Game :=
  { g.copy with board := g.copy.board.reverse }

/-- `TdLearningAgent.symmetries` (`tdlearningagent.py` lines 91-106): the
state, its mirror, and each of the three non-trivial rotations followed
by its mirror, in the order the loop appends them. -/
def symmetries (g : Game) : List Game :=
  [g, mirror g,
   rotate g 1, mirror (rotate g 1),
   rotate g 2, mirror (rotate g 2),
   rotate g 3, mirror (rotate g 3)]

/-- The feature read by `evaluate_feature` (line 165): the tuple of tile
values at the n-tuple's coordinates. -/
def feature (nt : Ntuple) (g : Game) : List Nat :=
  nt.map (fun p => (g.board.getD p.1 []).getD p.2 0)

/-- `TdLearningAgent.evaluate_feature` (lines 156-170): look the feature
up in the n-tuple's table (default 0; see the modelling note on
`TdLearningAgent`). -/
def evaluate_feature (ag : TdLearningAgent) (nt : Ntuple) (g : Game) : ℚ :=
  ag.LUT nt (feature nt g)

/-- `TdLearningAgent.evaluate_state` (lines 172-189): the sum of all
feature weights over the 8 symmetries and all n-tuples. -/
def evaluate_state (ag : TdLearningAgent) (g : Game) : ℚ :=
  ((symmetries g).map (fun s => (ntuples.map (fun nt => evaluate_feature ag nt s)).sum)).sum

/-- `TdLearningAgent.compute_afterstate` (lines 108-137): copy the state
and apply the move, returning the moved copy and the reward.  The
`ValueError` branch for an unrecognised action string is unreachable
here because `Direction` has exactly the four valid actions. -/
def compute_afterstate (g : Game) (a : Direction) : Game × Nat :=
  apply_move a g.copy

/-- `TdLearningAgent.evaluate_action` (lines 191-201): the reward of the
action plus the value of its afterstate. -/
def evaluate_action (ag : TdLearningAgent) (g : Game) (a : Direction) : ℚ :=
  ((compute_afterstate g a).2 : ℚ) + evaluate_state ag (compute_afterstate g a).1

/-- `TdLearningAgent.get_best_action` (lines 227-241): fold over the legal
moves keeping the first action whose value strictly exceeds the best so
far, starting from `("NULL", -999999)`; "NULL" is modelled as `none`.
Python iterates the legal-move `set` in an unspecified order; the model
uses the fixed LEFT, RIGHT, UP, DOWN order of `get_legal_moves`. -/
def get_best_action (ag : TdLearningAgent) (g : Game) : Option Direction :=
  (g.get_legal_moves.foldl (fun best a =>
    let value := evaluate_action ag g a
    if value > best.2 then (some a, value) else best)
    ((none : Option Direction), (-999999 : ℚ))).1

/-- `TdLearningAgent.learn_evaluation` (lines 203-225): pick the greedy
best action of `next_state`, compute its afterstate and reward, and for
every n-tuple set the weight of the current afterstate's feature to its
previous value plus `(learning_rate / m) * (next_reward +
next_afterstate_value - afterstate_value)`, where both state values are
read before the loop.  When `get_best_action` returns "NULL",
`compute_afterstate` raises `ValueError`. -/
def learn_evaluation (ag : TdLearningAgent) (afterstate next_state : Game) :
    Except PyError TdLearningAgent :=
  match get_best_action ag next_state with
  | none => Except.error (PyError.valueError "Invalid move: NULL")
  | some next_action =>
    let next_reward := (compute_afterstate next_state next_action).2
    let next_afterstate := (compute_afterstate next_state next_action).1
    let afterstate_value := evaluate_state ag afterstate
    let next_afterstate_value := evaluate_state ag next_afterstate
    let newLUT := ntuples.foldl (fun lut nt =>
      fun nt2 f2 => if nt2 = nt ∧ f2 = feature nt afterstate then
        lut nt (feature nt afterstate) +
          (ag.learning_rate / (ntuples.length : ℚ)) *
            ((next_reward : ℚ) + next_afterstate_value - afterstate_value)
      else lut nt2 f2) ag.LUT
    Except.ok { ag with LUT := newLUT }

/-- One entry of the end-of-episode learning loop of
`TdLearningAgent.play_game` (lines 263-266): update on the recorded
`(afterstate, next_state)` pair only when `next_state` is non-terminal. -/
def learn_step (ag : TdLearningAgent) (p : Game × Game) : Except PyError TdLearningAgent :=
  if p.2.is_game_over then Except.ok ag else learn_evaluation ag p.1 p.2

/-- The whole end-of-episode learning pass of `play_game`: fold
`learn_step` over the recorded history in reverse order. -/
def learn_phase (ag : TdLearningAgent) (history : List (Game × Game)) :
    Except PyError TdLearningAgent :=
  history.reverse.foldlM learn_step ag

/- ============================================================
   Experimental_TDLearning_Agent.py — the experimental TD agent
   ============================================================ -/

/-- The ten 8-tuples of the experimental agent
(`Experimental_TDLearning_Agent.py` lines 24-42). -/
def ntuples_8 : List Ntuple :=
  [[(0, 0), (0, 1), (0, 2), (0, 3), (1, 0), (1, 1), (1, 2), (1, 3)],
   [(2, 0), (2, 1), (2, 2), (2, 3), (3, 0), (3, 1), (3, 2), (3, 3)],
   [(0, 0), (1, 0), (2, 0), (3, 0), (0, 1), (1, 1), (2, 1), (3, 1)],
   [(0, 2), (1, 2), (2, 2), (3, 2), (0, 3), (1, 3), (2, 3), (3, 3)],
   [(0, 0), (0, 1), (0, 2), (1, 0), (2, 0), (3, 0), (1, 1), (2, 1)],
   [(0, 0), (1, 0), (2, 0), (3, 0), (3, 1), (3, 2), (2, 1), (1, 1)],
   [(0, 3), (0, 2), (0, 1), (1, 3), (2, 3), (3, 3), (1, 2), (2, 2)],
   [(3, 3), (2, 3), (1, 3), (0, 3), (3, 2), (3, 1), (2, 2), (1, 2)],
   [(0, 0), (0, 1), (1, 0), (1, 1), (1, 2), (2, 1), (2, 2), (3, 2)],
   [(0, 3), (0, 2), (1, 3), (1, 2), (1, 1), (2, 2), (2, 1), (3, 1)]]

/-- The experimental agent's pattern set, `ntuples_6 + ntuples_8` (line
44); its `ntuples_6` equals the main agent's eight 6-tuples verbatim. -/
def x_ntuples : List Ntuple :=
  ntuples ++ ntuples_8

/-- The learning state of the experimental `TdLearningAgent` (same class
name in its own file): lookup tables and `learning_rate = 0.005`; the
exploration parameters play no role in the claims. -/
structure TdLearningAgentX where
  LUT : Ntuple → List Nat → ℚ
  learning_rate : ℚ

/-- The maximum tile and its position, scanned row-major with a strict
comparison from `(0, (0, 0))` — the loop shared by the experimental
agent's `evaluate_action` (lines 156-164) and the expectimax agent's
`evaluate` (lines 141-147). -/
def max_tile_pos (g : Game) : Nat × (Nat × Nat) :=
  ((List.range 4).flatMap (fun i => (List.range 4).map (fun j => (i, j)))).foldl
    (fun acc p =>
      if (g.board.getD p.1 []).getD p.2 0 > acc.1 then
        ((g.board.getD p.1 []).getD p.2 0, p)
      else acc)
    (0, (0, 0))

/-- `TdLearningAgent._tile_bonus` of the experimental file (lines
196-213): an exact table for 1024, 2048 and 4096.  The fallback branch
(reachable only for a maximum tile of 8192 or more) computes a
floating-point expression with a non-integral exponent; no claim
exercises it and it is modelled as 0. -/
def tile_bonus (mt : Nat) : ℚ :=
  if mt = 1024 then 200
  else if mt = 2048 then 2800
  else if mt = 4096 then 15300
  else 0

/-- The experimental agent's `evaluate_state` (lines 119-144): the same
sum over 8 symmetries and all its n-tuples, with the dict access inlined
(value-identical to the main agent's loop). -/
def x_evaluate_state (ag : TdLearningAgentX) (g : Game) : ℚ :=
  ((symmetries g).map (fun s => (x_ntuples.map (fun nt => ag.LUT nt (feature nt s))).sum)).sum

/-- The experimental agent's `evaluate_action` (lines 146-194): reward
plus corner bonus (`max_tile >> 1` when the maximum tile is at least 256
and sits in a corner, plus `_tile_bonus` from 1024 up) plus penalty
(`-(max_tile * 4 // 5)` when at least 512 and not in a corner) plus
`evaluate_state(afterstate)`.  The commented-out monotonicity bonus of
the source contributes nothing. -/
def x_evaluate_action (ag : TdLearningAgentX) (g : Game) (a : Direction) : ℚ :=
  let afterstate := (compute_afterstate g a).1
  let reward := (compute_afterstate g a).2
  let mt := (max_tile_pos afterstate).1
  let pos := (max_tile_pos afterstate).2
  let bonus : ℚ :=
    (if pos = (0, 0) ∨ pos = (0, 3) ∨ pos = (3, 0) ∨ pos = (3, 3) then
      (if 256 ≤ mt then ((mt / 2 : Nat) : ℚ) else 0)
    else 0) + (if 1024 ≤ mt then tile_bonus mt else 0)
  let penalty : ℚ :=
    if pos = (0, 0) ∨ pos = (0, 3) ∨ pos = (3, 0) ∨ pos = (3, 3) then 0
    else if 512 ≤ mt then -(((mt * 4 / 5 : Nat)) : ℚ) else 0
  (reward : ℚ) + bonus + penalty + x_evaluate_state ag afterstate

/- ============================================================
   expectimax_agent.py — the expectimax search agent
   ============================================================ -/

/-- The expectimax agent: only the depth limit matters to the claims.
The transposition cache (`self.cache`) memoises values of this pure
search and is cleared per decision; it does not change any value and is
not modelled. -/
structure ExpectimaxAgent where
  depth : Nat

/-- `ExpectimaxAgent.generateSuccessor` (lines 83-95): copy the game and
apply the move, discarding the returned points (the score attribute is
still updated on the copy). -/
def generateSuccessor (g : Game) (m : Direction) : Game :=
  (apply_move m g.copy).1

/-- `ExpectimaxAgent.evaluate` (lines 137-194): empty-cell bonus, max-tile
bonus, corner bonus or penalty, and adjacent-equal merge bonus.  The
`mono_score` accumulator in the source is computed but never added to
`score`, so it does not contribute to the returned value. -/
def exp_evaluate (g : Game) : ℤ :=
  let empty_count := g.get_empty_tiles.length
  let mt := (max_tile_pos g).1
  let pos := (max_tile_pos g).2
  let base : ℤ := (empty_count : ℤ) * 500 + (mt : ℤ) * 2
  let with_corner : ℤ :=
    if pos = (0, 0) ∨ pos = (0, 3) ∨ pos = (3, 0) ∨ pos = (3, 3) then
      base + (mt : ℤ) * 3
    else base - (mt : ℤ) * 2
  let merge_bonus : ℤ :=
    ((List.range 4).flatMap (fun i => (List.range 4).map (fun j => (i, j)))).foldl
      (fun acc p =>
        let c := (g.board.getD p.1 []).getD p.2 0
        acc +
          (if 0 < c ∧ p.2 < 3 ∧ c = (g.board.getD p.1 []).getD (p.2 + 1) 0 then (c : ℤ) else 0) +
          (if 0 < c ∧ p.1 < 3 ∧ c = (g.board.getD (p.1 + 1) []).getD p.2 0 then (c : ℤ) else 0))
      0
  with_corner + merge_bonus

/-- The empty cells a chance node actually branches on
(`chance_value` lines 98-113): all of them when at most 4 are empty;
otherwise at most 4, preferring corner/edge positions (note
`(priority_empty + empty)[:4]` may repeat a cell). -/
def considered_cells (g : Game) : List (Nat × Nat) :=
  let empty := g.get_empty_tiles
  if 4 < empty.length then
    let priority := empty.filter (fun p =>
      ((p.1 == 0 || p.1 == 3) && (p.2 == 0 || p.2 == 3)) ||
        ((p.1 == 0 || p.1 == 3) || (p.2 == 0 || p.2 == 3)))
    if 4 < priority.length then priority.take 4 else (priority ++ empty).take 4
  else empty

/-- Copy the game and place tile `v` at cell `p` (`s2 = state.copy();
s2.board[x][y] = 2` and its tile-4 twin in `chance_value`). -/
def place (g : Game) (p : Nat × Nat) (v : Nat) : Game :=
  { g.copy with board := set_tile g.copy.board p.1 p.2 v }

mutual

/-- `ExpectimaxAgent.expectimax` (lines 48-63), reparametrised by the
remaining depth `rem = self.depth - depth`, so the leaf test
`depth == self.depth` becomes `rem = 0` and the deepest-chance test
`depth < self.depth - 1` becomes `1 < rem` — equivalent throughout the
reachable range `depth ≤ self.depth`.  The cache lookup is value-neutral
memoisation and is omitted. -/
def expectimax (ag : ExpectimaxAgent) (g : Game) (rem : Nat) (agentIndex : Nat) : ℚ :=
  if h : g.is_game_over = true ∨ rem = 0 then ((exp_evaluate g : ℤ) : ℚ)
  else if ha : agentIndex = 0 then max_value ag g rem
  else chance_value ag g rem
termination_by if agentIndex = 0 then (if rem = 0 then 0 else 4 * rem + 4) else 4 * rem + 2
decreasing_by
  all_goals simp_wf
  all_goals split_ifs <;> omega

/-- `ExpectimaxAgent.max_value` (lines 69-81): the maximum over legal
moves of the successor values (the `-inf` accumulator of the source makes
the fold start from the first value); the heuristic evaluation when no
move is legal. -/
def max_value (ag : ExpectimaxAgent) (g : Game) (rem : Nat) : ℚ :=
  match g.get_legal_moves.map (fun m => expectimax ag (generateSuccessor g m) rem 1) with
  | [] => ((exp_evaluate g : ℤ) : ℚ)
  | v :: vs => vs.foldl max v
termination_by 4 * rem + 3
decreasing_by
  simp_wf

/-- `ExpectimaxAgent.chance_value` (lines 97-135): the heuristic value on
a full board; otherwise, over the considered empty cells, accumulate
`0.9 * p * val2` plus either `0.1 * p * val4` (when not at the deepest
chance level) or the approximation `0.1 * p * val2 * 1.2`, with
`p = 1 / len(considered)`. -/
def chance_value (ag : ExpectimaxAgent) (g : Game) (rem : Nat) : ℚ :=
  if g.get_empty_tiles = [] then ((exp_evaluate g : ℤ) : ℚ)
  else
    (considered_cells g).foldl (fun acc p =>
      acc + (9 / 10) * (1 / ((considered_cells g).length : ℚ)) *
          expectimax ag (place g p 2) (rem - 1) 0 +
        (if 1 < rem then
          (1 / 10) * (1 / ((considered_cells g).length : ℚ)) *
            expectimax ag (place g p 4) (rem - 1) 0
        else
          (1 / 10) * (1 / ((considered_cells g).length : ℚ)) *
            expectimax ag (place g p 2) (rem - 1) 0 * (12 / 10))) 0
termination_by 4 * rem + 1
decreasing_by
  all_goals simp_wf
  all_goals split_ifs <;> omega

end

/- ============================================================
   C1 — move_left row semantics
   ============================================================ -/

/-- C1: `move_left` compacts a row leftward and merges each pair of
adjacent equal tiles once, with no chain merges, returning the sum of the
merged values: `[2,2,0,0] ↦ ([4,0,0,0], 4)`; `[2,2,2,2] ↦ ([4,4,0,0], 8)`
and not `[8,0,0,0]`; and in general, for any non-zero tile value `a`,
`[a,a,0,0] ↦ ([2a,0,0,0], 2a)` and `[a,a,a,a] ↦ ([2a,2a,0,0], 4a)`. -/
theorem c1_move_left_merges_once (a : Nat) (ha : a ≠ 0) :
    move_left_row 4 [2, 2, 0, 0] = ([4, 0, 0, 0], 4) ∧
    move_left_row 4 [2, 2, 2, 2] = ([4, 4, 0, 0], 8) ∧
    (move_left_row 4 [2, 2, 2, 2]).1 ≠ [8, 0, 0, 0] ∧
    move_left_row 4 [a, a, 0, 0] = ([a * 2, 0, 0, 0], a * 2) ∧
    move_left_row 4 [a, a, a, a] = ([a * 2, a * 2, 0, 0], a * 2 + a * 2) := by
  have ha' : (a != 0) = true := by simpa using ha
  refine ⟨by decide, by decide, by decide, ?_, ?_⟩ <;>
    simp [move_left_row, merge_pass, List.filter_cons, ha', List.replicate]

/-- Witness for C1 at the concrete tile value 3. -/
theorem c1_move_left_merges_once_witness :
    move_left_row 4 [2, 2, 0, 0] = ([4, 0, 0, 0], 4) ∧
    move_left_row 4 [2, 2, 2, 2] = ([4, 4, 0, 0], 8) ∧
    (move_left_row 4 [2, 2, 2, 2]).1 ≠ [8, 0, 0, 0] ∧
    move_left_row 4 [3, 3, 0, 0] = ([6, 0, 0, 0], 6) ∧
    move_left_row 4 [3, 3, 3, 3] = ([6, 6, 0, 0], 12) := by
  exact c1_move_left_merges_once 3 (by decide)

/- ============================================================
   Row-level lemmas shared by C2, C5 and C10
   ============================================================ -/

/-- The merge scan never lengthens a list. -/
theorem mp_len_le : ∀ l : List Nat, (merge_pass l).1.length ≤ l.length
  | [] => by simp [merge_pass]
  | [a] => by simp [merge_pass]
  | a :: b :: rest => by
    have h1 := mp_len_le rest
    have h2 := mp_len_le (b :: rest)
    simp only [merge_pass]
    split_ifs <;> simp at * <;> omega

/-- Moving a full-length row left yields a row of the same length. -/
theorem mlr_length (row : List Nat) (n : Nat) (h : row.length = n) :
    (move_left_row n row).1.length = n := by
  have h1 : (row.filter (fun n => n != 0)).length ≤ row.length := List.length_filter_le _ _
  have h2 := mp_len_le (row.filter (fun n => n != 0))
  simp only [move_left_row, List.length_append, List.length_replicate]
  omega

/-- Moving a full-length row right yields a row of the same length. -/
theorem mrr_length (row : List Nat) (n : Nat) (h : row.length = n) :
    (move_right_row n row).1.length = n := by
  have h1 : (row.filter (fun n => n != 0)).length ≤ row.length := List.length_filter_le _ _
  have h2 := mp_len_le (row.filter (fun n => n != 0)).reverse
  simp only [move_right_row, List.length_append, List.length_replicate,
    List.length_reverse] at *
  omega

/-- A list of length four is a four-element literal. -/
theorem list_len4 (l : List Nat) (h : l.length = 4) : ∃ a b c d : Nat, l = [a, b, c, d] :=
  match l, h with
  | [a, b, c, d], _ => ⟨a, b, c, d, rfl⟩

/-- LEFT is offered exactly when some row passes the LEFT scan. -/
theorem mem_legal_left (g : Game) :
    Direction.LEFT ∈ g.get_legal_moves ↔ g.board.any rowCanLeft = true := by
  simp only [Game.get_legal_moves, List.mem_append]
  split_ifs <;> simp_all

/-- RIGHT is offered exactly when some row passes the RIGHT scan. -/
theorem mem_legal_right (g : Game) :
    Direction.RIGHT ∈ g.get_legal_moves ↔ g.board.any rowCanRight = true := by
  simp only [Game.get_legal_moves, List.mem_append]
  split_ifs <;> simp_all

/-- UP is offered exactly when some column passes the LEFT scan. -/
theorem mem_legal_up (g : Game) :
    Direction.UP ∈ g.get_legal_moves ↔
      (List.range g.size).any (fun i => rowCanLeft (g.column i)) = true := by
  simp only [Game.get_legal_moves, List.mem_append]
  split_ifs <;> simp_all

/-- DOWN is offered exactly when some column passes the RIGHT scan. -/
theorem mem_legal_down (g : Game) :
    Direction.DOWN ∈ g.get_legal_moves ↔
      (List.range g.size).any (fun i => rowCanRight (g.column i)) = true := by
  simp only [Game.get_legal_moves, List.mem_append]
  split_ifs <;> simp_all

set_option maxHeartbeats 1000000 in
/-- A four-cell row is fixed by the LEFT move exactly when the LEFT scan of
`get_legal_moves` fails on it. -/
theorem ml_row_fix_iff (a b c d : Nat) :
    (move_left_row 4 [a, b, c, d]).1 = [a, b, c, d] ↔ ¬ rowCanLeft [a, b, c, d] = true := by
  simp only [Bool.not_eq_true]
  by_cases ha : a = 0 <;> by_cases hb : b = 0 <;> by_cases hc : c = 0 <;> by_cases hd : d = 0 <;>
    simp [move_left_row, merge_pass, rowCanLeft, List.filter_cons, ha, hb, hc, hd] <;>
    split_ifs <;> simp_all

set_option maxHeartbeats 1000000 in
/-- A four-cell row fixed by the LEFT move contributes no score. -/
theorem ml_row_score (a b c d : Nat) (h : (move_left_row 4 [a, b, c, d]).1 = [a, b, c, d]) :
    (move_left_row 4 [a, b, c, d]).2 = 0 := by
  by_cases ha : a = 0 <;> by_cases hb : b = 0 <;> by_cases hc : c = 0 <;> by_cases hd : d = 0 <;>
    simp_all [move_left_row, merge_pass, List.filter_cons, ha, hb, hc, hd] <;>
    split_ifs <;> simp_all

set_option maxHeartbeats 1000000 in
/-- A four-cell row is fixed by the RIGHT move exactly when the RIGHT scan
of `get_legal_moves` fails on it. -/
theorem mr_row_fix_iff (a b c d : Nat) :
    (move_right_row 4 [a, b, c, d]).1 = [a, b, c, d] ↔ ¬ rowCanRight [a, b, c, d] = true := by
  simp only [Bool.not_eq_true]
  by_cases ha : a = 0 <;> by_cases hb : b = 0 <;> by_cases hc : c = 0 <;> by_cases hd : d = 0 <;>
    simp [move_right_row, merge_pass, rowCanRight, List.filter_cons, ha, hb, hc, hd] <;>
    split_ifs <;> simp_all

set_option maxHeartbeats 1000000 in
/-- A four-cell row fixed by the RIGHT move contributes no score. -/
theorem mr_row_score (a b c d : Nat) (h : (move_right_row 4 [a, b, c, d]).1 = [a, b, c, d]) :
    (move_right_row 4 [a, b, c, d]).2 = 0 := by
  by_cases ha : a = 0 <;> by_cases hb : b = 0 <;> by_cases hc : c = 0 <;> by_cases hd : d = 0 <;>
    simp_all [move_right_row, merge_pass, List.filter_cons, ha, hb, hc, hd] <;>
    split_ifs <;> simp_all

/-- Board-level LEFT: legality coincides with the move changing the board,
and an illegal LEFT is a no-op with zero reward. -/
theorem legal_left_iff_change (g : Game) (hsz : g.size = 4) (hb : g.board.length = 4)
    (hr : ∀ r ∈ g.board, r.length = 4) :
    (Direction.LEFT ∈ g.get_legal_moves ↔ (g.move_left).1.board ≠ g.board) ∧
    (Direction.LEFT ∉ g.get_legal_moves → (g.move_left).1 = g ∧ (g.move_left).2 = 0) := by
  obtain ⟨b, s, sz⟩ := g
  simp only at hsz hb hr ⊢
  subst hsz
  obtain ⟨r1, r2, r3, r4, rfl⟩ : ∃ r1 r2 r3 r4, b = [r1, r2, r3, r4] := by
    match b, hb with
    | [r1, r2, r3, r4], _ => exact ⟨r1, r2, r3, r4, rfl⟩
  obtain ⟨a1, a2, a3, a4, rfl⟩ := list_len4 r1 (hr r1 (by simp))
  obtain ⟨b1, b2, b3, b4, rfl⟩ := list_len4 r2 (hr r2 (by simp))
  obtain ⟨c1, c2, c3, c4, rfl⟩ := list_len4 r3 (hr r3 (by simp))
  obtain ⟨d1, d2, d3, d4, rfl⟩ := list_len4 r4 (hr r4 (by simp))
  have h1 := ml_row_fix_iff a1 a2 a3 a4
  have h2 := ml_row_fix_iff b1 b2 b3 b4
  have h3 := ml_row_fix_iff c1 c2 c3 c4
  have h4 := ml_row_fix_iff d1 d2 d3 d4
  have s1 := ml_row_score a1 a2 a3 a4
  have s2 := ml_row_score b1 b2 b3 b4
  have s3 := ml_row_score c1 c2 c3 c4
  have s4 := ml_row_score d1 d2 d3 d4
  rw [mem_legal_left]
  obtain ⟨q1, t1, hm1⟩ : ∃ q t, move_left_row 4 [a1, a2, a3, a4] = (q, t) := ⟨_, _, rfl⟩
  obtain ⟨q2, t2, hm2⟩ : ∃ q t, move_left_row 4 [b1, b2, b3, b4] = (q, t) := ⟨_, _, rfl⟩
  obtain ⟨q3, t3, hm3⟩ : ∃ q t, move_left_row 4 [c1, c2, c3, c4] = (q, t) := ⟨_, _, rfl⟩
  obtain ⟨q4, t4, hm4⟩ : ∃ q t, move_left_row 4 [d1, d2, d3, d4] = (q, t) := ⟨_, _, rfl⟩
  rw [hm1] at h1 s1
  rw [hm2] at h2 s2
  rw [hm3] at h3 s3
  rw [hm4] at h4 s4
  simp only [Game.move_left, List.map, hm1, hm2, hm3, hm4, List.any_cons, List.any_nil,
    Bool.or_eq_true, Bool.false_eq_true, or_false, ne_eq, Game.mk.injEq, List.cons.injEq,
    and_true, true_and, List.sum_cons, List.sum_nil, not_and]
  dsimp only at h1 h2 h3 h4 s1 s2 s3 s4
  constructor
  · constructor
    · intro h e1 e2 e3 e4
      rcases h with p | p | p | p
      · exact h1.mp e1 p
      · exact h2.mp e2 p
      · exact h3.mp e3 p
      · exact h4.mp e4 p
    · intro himp
      by_contra hno
      push_neg at hno
      obtain ⟨n1, n2, n3, n4⟩ := hno
      exact himp (h1.mpr n1) (h2.mpr n2) (h3.mpr n3) (h4.mpr n4)
  · intro hno
    push_neg at hno
    obtain ⟨n1, n2, n3, n4⟩ := hno
    have e1 := h1.mpr n1
    have e2 := h2.mpr n2
    have e3 := h3.mpr n3
    have e4 := h4.mpr n4
    rw [s1 e1, s2 e2, s3 e3, s4 e4]
    exact ⟨⟨⟨e1, e2, e3, e4⟩, rfl⟩, rfl⟩

/-- Board-level RIGHT: legality coincides with the move changing the
board, and an illegal RIGHT is a no-op with zero reward. -/
theorem legal_right_iff_change (g : Game) (hsz : g.size = 4) (hb : g.board.length = 4)
    (hr : ∀ r ∈ g.board, r.length = 4) :
    (Direction.RIGHT ∈ g.get_legal_moves ↔ (g.move_right).1.board ≠ g.board) ∧
    (Direction.RIGHT ∉ g.get_legal_moves → (g.move_right).1 = g ∧ (g.move_right).2 = 0) := by
  obtain ⟨b, s, sz⟩ := g
  simp only at hsz hb hr ⊢
  subst hsz
  obtain ⟨r1, r2, r3, r4, rfl⟩ : ∃ r1 r2 r3 r4, b = [r1, r2, r3, r4] := by
    match b, hb with
    | [r1, r2, r3, r4], _ => exact ⟨r1, r2, r3, r4, rfl⟩
  obtain ⟨a1, a2, a3, a4, rfl⟩ := list_len4 r1 (hr r1 (by simp))
  obtain ⟨b1, b2, b3, b4, rfl⟩ := list_len4 r2 (hr r2 (by simp))
  obtain ⟨c1, c2, c3, c4, rfl⟩ := list_len4 r3 (hr r3 (by simp))
  obtain ⟨d1, d2, d3, d4, rfl⟩ := list_len4 r4 (hr r4 (by simp))
  have h1 := mr_row_fix_iff a1 a2 a3 a4
  have h2 := mr_row_fix_iff b1 b2 b3 b4
  have h3 := mr_row_fix_iff c1 c2 c3 c4
  have h4 := mr_row_fix_iff d1 d2 d3 d4
  have s1 := mr_row_score a1 a2 a3 a4
  have s2 := mr_row_score b1 b2 b3 b4
  have s3 := mr_row_score c1 c2 c3 c4
  have s4 := mr_row_score d1 d2 d3 d4
  rw [mem_legal_right]
  obtain ⟨q1, t1, hm1⟩ : ∃ q t, move_right_row 4 [a1, a2, a3, a4] = (q, t) := ⟨_, _, rfl⟩
  obtain ⟨q2, t2, hm2⟩ : ∃ q t, move_right_row 4 [b1, b2, b3, b4] = (q, t) := ⟨_, _, rfl⟩
  obtain ⟨q3, t3, hm3⟩ : ∃ q t, move_right_row 4 [c1, c2, c3, c4] = (q, t) := ⟨_, _, rfl⟩
  obtain ⟨q4, t4, hm4⟩ : ∃ q t, move_right_row 4 [d1, d2, d3, d4] = (q, t) := ⟨_, _, rfl⟩
  rw [hm1] at h1 s1
  rw [hm2] at h2 s2
  rw [hm3] at h3 s3
  rw [hm4] at h4 s4
  simp only [Game.move_right, List.map, hm1, hm2, hm3, hm4, List.any_cons, List.any_nil,
    Bool.or_eq_true, Bool.false_eq_true, or_false, ne_eq, Game.mk.injEq, List.cons.injEq,
    and_true, true_and, List.sum_cons, List.sum_nil, not_and]
  dsimp only at h1 h2 h3 h4 s1 s2 s3 s4
  constructor
  · constructor
    · intro h e1 e2 e3 e4
      rcases h with p | p | p | p
      · exact h1.mp e1 p
      · exact h2.mp e2 p
      · exact h3.mp e3 p
      · exact h4.mp e4 p
    · intro himp
      by_contra hno
      push_neg at hno
      obtain ⟨n1, n2, n3, n4⟩ := hno
      exact himp (h1.mpr n1) (h2.mpr n2) (h3.mpr n3) (h4.mpr n4)
  · intro hno
    push_neg at hno
    obtain ⟨n1, n2, n3, n4⟩ := hno
    have e1 := h1.mpr n1
    have e2 := h2.mpr n2
    have e3 := h3.mpr n3
    have e4 := h4.mpr n4
    rw [s1 e1, s2 e2, s3 e3, s4 e4]
    exact ⟨⟨⟨e1, e2, e3, e4⟩, rfl⟩, rfl⟩

/-- Board-level UP: legality coincides with the move changing the board,
and an illegal UP is a no-op with zero reward. -/
theorem legal_up_iff_change (g : Game) (hsz : g.size = 4) (hb : g.board.length = 4)
    (hr : ∀ r ∈ g.board, r.length = 4) :
    (Direction.UP ∈ g.get_legal_moves ↔ (g.move_up).1.board ≠ g.board) ∧
    (Direction.UP ∉ g.get_legal_moves → (g.move_up).1 = g ∧ (g.move_up).2 = 0) := by
  obtain ⟨b, s, sz⟩ := g
  simp only at hsz hb hr ⊢
  subst hsz
  obtain ⟨r1, r2, r3, r4, rfl⟩ : ∃ r1 r2 r3 r4, b = [r1, r2, r3, r4] := by
    match b, hb with
    | [r1, r2, r3, r4], _ => exact ⟨r1, r2, r3, r4, rfl⟩
  obtain ⟨a1, a2, a3, a4, rfl⟩ := list_len4 r1 (hr r1 (by simp))
  obtain ⟨b1, b2, b3, b4, rfl⟩ := list_len4 r2 (hr r2 (by simp))
  obtain ⟨c1, c2, c3, c4, rfl⟩ := list_len4 r3 (hr r3 (by simp))
  obtain ⟨d1, d2, d3, d4, rfl⟩ := list_len4 r4 (hr r4 (by simp))
  have hcol0 : Game.column ⟨[[a1,a2,a3,a4],[b1,b2,b3,b4],[c1,c2,c3,c4],[d1,d2,d3,d4]], s, 4⟩ 0
      = [a1, b1, c1, d1] := rfl
  have hcol1 : Game.column ⟨[[a1,a2,a3,a4],[b1,b2,b3,b4],[c1,c2,c3,c4],[d1,d2,d3,d4]], s, 4⟩ 1
      = [a2, b2, c2, d2] := rfl
  have hcol2 : Game.column ⟨[[a1,a2,a3,a4],[b1,b2,b3,b4],[c1,c2,c3,c4],[d1,d2,d3,d4]], s, 4⟩ 2
      = [a3, b3, c3, d3] := rfl
  have hcol3 : Game.column ⟨[[a1,a2,a3,a4],[b1,b2,b3,b4],[c1,c2,c3,c4],[d1,d2,d3,d4]], s, 4⟩ 3
      = [a4, b4, c4, d4] := rfl
  have hrange : List.range 4 = [0, 1, 2, 3] := rfl
  obtain ⟨q1, t1, hm1⟩ : ∃ q t, move_left_row 4 [a1, b1, c1, d1] = (q, t) := ⟨_, _, rfl⟩
  obtain ⟨q2, t2, hm2⟩ : ∃ q t, move_left_row 4 [a2, b2, c2, d2] = (q, t) := ⟨_, _, rfl⟩
  obtain ⟨q3, t3, hm3⟩ : ∃ q t, move_left_row 4 [a3, b3, c3, d3] = (q, t) := ⟨_, _, rfl⟩
  obtain ⟨q4, t4, hm4⟩ : ∃ q t, move_left_row 4 [a4, b4, c4, d4] = (q, t) := ⟨_, _, rfl⟩
  obtain ⟨u1, u2, u3, u4, rfl⟩ := list_len4 q1 (by
    have := mlr_length [a1, b1, c1, d1] 4 (by simp)
    rw [hm1] at this; exact this)
  obtain ⟨v1, v2, v3, v4, rfl⟩ := list_len4 q2 (by
    have := mlr_length [a2, b2, c2, d2] 4 (by simp)
    rw [hm2] at this; exact this)
  obtain ⟨w1, w2, w3, w4, rfl⟩ := list_len4 q3 (by
    have := mlr_length [a3, b3, c3, d3] 4 (by simp)
    rw [hm3] at this; exact this)
  obtain ⟨x1, x2, x3, x4, rfl⟩ := list_len4 q4 (by
    have := mlr_length [a4, b4, c4, d4] 4 (by simp)
    rw [hm4] at this; exact this)
  have h1 := ml_row_fix_iff a1 b1 c1 d1
  have h2 := ml_row_fix_iff a2 b2 c2 d2
  have h3 := ml_row_fix_iff a3 b3 c3 d3
  have h4 := ml_row_fix_iff a4 b4 c4 d4
  have s1 := ml_row_score a1 b1 c1 d1
  have s2 := ml_row_score a2 b2 c2 d2
  have s3 := ml_row_score a3 b3 c3 d3
  have s4 := ml_row_score a4 b4 c4 d4
  rw [hm1] at h1 s1
  rw [hm2] at h2 s2
  rw [hm3] at h3 s3
  rw [hm4] at h4 s4
  dsimp only at h1 h2 h3 h4 s1 s2 s3 s4
  rw [mem_legal_up]
  simp only [Game.move_up, hrange, hcol0, hcol1, hcol2, hcol3, List.map, hm1, hm2, hm3, hm4,
    List.any_cons, List.any_nil, Bool.or_eq_true, Bool.false_eq_true, or_false, ne_eq,
    Game.mk.injEq, List.cons.injEq, and_true, true_and, List.sum_cons, List.sum_nil, not_and,
    List.getD_cons_zero, List.getD_cons_succ]
  simp only [List.cons.injEq, and_true] at h1 h2 h3 h4
  constructor
  · constructor
    · intro p e1 e2 e3 eu4 ev4 ew4 hx4
      rcases p with p | p | p | p
      · exact h1.mp ⟨e1.1, e2.1, e3.1, eu4⟩ p
      · exact h2.mp ⟨e1.2.1, e2.2.1, e3.2.1, ev4⟩ p
      · exact h3.mp ⟨e1.2.2.1, e2.2.2.1, e3.2.2.1, ew4⟩ p
      · exact h4.mp ⟨e1.2.2.2, e2.2.2.2, e3.2.2.2, hx4⟩ p
    · intro himp
      by_contra hno
      push_neg at hno
      obtain ⟨n1, n2, n3, n4⟩ := hno
      have k1 := h1.mpr n1
      have k2 := h2.mpr n2
      have k3 := h3.mpr n3
      have k4 := h4.mpr n4
      exact himp ⟨k1.1, k2.1, k3.1, k4.1⟩ ⟨k1.2.1, k2.2.1, k3.2.1, k4.2.1⟩
        ⟨k1.2.2.1, k2.2.2.1, k3.2.2.1, k4.2.2.1⟩ k1.2.2.2 k2.2.2.2 k3.2.2.2 k4.2.2.2
  · intro hno
    push_neg at hno
    obtain ⟨n1, n2, n3, n4⟩ := hno
    have k1 := h1.mpr n1
    have k2 := h2.mpr n2
    have k3 := h3.mpr n3
    have k4 := h4.mpr n4
    have z1 := s1 (by rw [k1.1, k1.2.1, k1.2.2.1, k1.2.2.2])
    have z2 := s2 (by rw [k2.1, k2.2.1, k2.2.2.1, k2.2.2.2])
    have z3 := s3 (by rw [k3.1, k3.2.1, k3.2.2.1, k3.2.2.2])
    have z4 := s4 (by rw [k4.1, k4.2.1, k4.2.2.1, k4.2.2.2])
    rw [z1, z2, z3, z4]
    exact ⟨⟨⟨⟨k1.1, k2.1, k3.1, k4.1⟩, ⟨k1.2.1, k2.2.1, k3.2.1, k4.2.1⟩,
      ⟨k1.2.2.1, k2.2.2.1, k3.2.2.1, k4.2.2.1⟩, k1.2.2.2, k2.2.2.2, k3.2.2.2, k4.2.2.2⟩,
      rfl⟩, rfl⟩

/-- Board-level DOWN: legality coincides with the move changing the board,
and an illegal DOWN is a no-op with zero reward. -/
theorem legal_down_iff_change (g : Game) (hsz : g.size = 4) (hb : g.board.length = 4)
    (hr : ∀ r ∈ g.board, r.length = 4) :
    (Direction.DOWN ∈ g.get_legal_moves ↔ (g.move_down).1.board ≠ g.board) ∧
    (Direction.DOWN ∉ g.get_legal_moves → (g.move_down).1 = g ∧ (g.move_down).2 = 0) := by
  obtain ⟨b, s, sz⟩ := g
  simp only at hsz hb hr ⊢
  subst hsz
  obtain ⟨r1, r2, r3, r4, rfl⟩ : ∃ r1 r2 r3 r4, b = [r1, r2, r3, r4] := by
    match b, hb with
    | [r1, r2, r3, r4], _ => exact ⟨r1, r2, r3, r4, rfl⟩
  obtain ⟨a1, a2, a3, a4, rfl⟩ := list_len4 r1 (hr r1 (by simp))
  obtain ⟨b1, b2, b3, b4, rfl⟩ := list_len4 r2 (hr r2 (by simp))
  obtain ⟨c1, c2, c3, c4, rfl⟩ := list_len4 r3 (hr r3 (by simp))
  obtain ⟨d1, d2, d3, d4, rfl⟩ := list_len4 r4 (hr r4 (by simp))
  have hcol0 : Game.column ⟨[[a1,a2,a3,a4],[b1,b2,b3,b4],[c1,c2,c3,c4],[d1,d2,d3,d4]], s, 4⟩ 0
      = [a1, b1, c1, d1] := rfl
  have hcol1 : Game.column ⟨[[a1,a2,a3,a4],[b1,b2,b3,b4],[c1,c2,c3,c4],[d1,d2,d3,d4]], s, 4⟩ 1
      = [a2, b2, c2, d2] := rfl
  have hcol2 : Game.column ⟨[[a1,a2,a3,a4],[b1,b2,b3,b4],[c1,c2,c3,c4],[d1,d2,d3,d4]], s, 4⟩ 2
      = [a3, b3, c3, d3] := rfl
  have hcol3 : Game.column ⟨[[a1,a2,a3,a4],[b1,b2,b3,b4],[c1,c2,c3,c4],[d1,d2,d3,d4]], s, 4⟩ 3
      = [a4, b4, c4, d4] := rfl
  have hrange : List.range 4 = [0, 1, 2, 3] := rfl
  obtain ⟨q1, t1, hm1⟩ : ∃ q t, move_right_row 4 [a1, b1, c1, d1] = (q, t) := ⟨_, _, rfl⟩
  obtain ⟨q2, t2, hm2⟩ : ∃ q t, move_right_row 4 [a2, b2, c2, d2] = (q, t) := ⟨_, _, rfl⟩
  obtain ⟨q3, t3, hm3⟩ : ∃ q t, move_right_row 4 [a3, b3, c3, d3] = (q, t) := ⟨_, _, rfl⟩
  obtain ⟨q4, t4, hm4⟩ : ∃ q t, move_right_row 4 [a4, b4, c4, d4] = (q, t) := ⟨_, _, rfl⟩
  obtain ⟨u1, u2, u3, u4, rfl⟩ := list_len4 q1 (by
    have := mrr_length [a1, b1, c1, d1] 4 (by simp)
    rw [hm1] at this; exact this)
  obtain ⟨v1, v2, v3, v4, rfl⟩ := list_len4 q2 (by
    have := mrr_length [a2, b2, c2, d2] 4 (by simp)
    rw [hm2] at this; exact this)
  obtain ⟨w1, w2, w3, w4, rfl⟩ := list_len4 q3 (by
    have := mrr_length [a3, b3, c3, d3] 4 (by simp)
    rw [hm3] at this; exact this)
  obtain ⟨x1, x2, x3, x4, rfl⟩ := list_len4 q4 (by
    have := mrr_length [a4, b4, c4, d4] 4 (by simp)
    rw [hm4] at this; exact this)
  have h1 := mr_row_fix_iff a1 b1 c1 d1
  have h2 := mr_row_fix_iff a2 b2 c2 d2
  have h3 := mr_row_fix_iff a3 b3 c3 d3
  have h4 := mr_row_fix_iff a4 b4 c4 d4
  have s1 := mr_row_score a1 b1 c1 d1
  have s2 := mr_row_score a2 b2 c2 d2
  have s3 := mr_row_score a3 b3 c3 d3
  have s4 := mr_row_score a4 b4 c4 d4
  rw [hm1] at h1 s1
  rw [hm2] at h2 s2
  rw [hm3] at h3 s3
  rw [hm4] at h4 s4
  dsimp only at h1 h2 h3 h4 s1 s2 s3 s4
  rw [mem_legal_down]
  simp only [Game.move_down, hrange, hcol0, hcol1, hcol2, hcol3, List.map, hm1, hm2, hm3, hm4,
    List.any_cons, List.any_nil, Bool.or_eq_true, Bool.false_eq_true, or_false, ne_eq,
    Game.mk.injEq, List.cons.injEq, and_true, true_and, List.sum_cons, List.sum_nil, not_and,
    List.getD_cons_zero, List.getD_cons_succ]
  simp only [List.cons.injEq, and_true] at h1 h2 h3 h4
  constructor
  · constructor
    · intro p e1 e2 e3 eu4 ev4 ew4 hx4
      rcases p with p | p | p | p
      · exact h1.mp ⟨e1.1, e2.1, e3.1, eu4⟩ p
      · exact h2.mp ⟨e1.2.1, e2.2.1, e3.2.1, ev4⟩ p
      · exact h3.mp ⟨e1.2.2.1, e2.2.2.1, e3.2.2.1, ew4⟩ p
      · exact h4.mp ⟨e1.2.2.2, e2.2.2.2, e3.2.2.2, hx4⟩ p
    · intro himp
      by_contra hno
      push_neg at hno
      obtain ⟨n1, n2, n3, n4⟩ := hno
      have k1 := h1.mpr n1
      have k2 := h2.mpr n2
      have k3 := h3.mpr n3
      have k4 := h4.mpr n4
      exact himp ⟨k1.1, k2.1, k3.1, k4.1⟩ ⟨k1.2.1, k2.2.1, k3.2.1, k4.2.1⟩
        ⟨k1.2.2.1, k2.2.2.1, k3.2.2.1, k4.2.2.1⟩ k1.2.2.2 k2.2.2.2 k3.2.2.2 k4.2.2.2
  · intro hno
    push_neg at hno
    obtain ⟨n1, n2, n3, n4⟩ := hno
    have k1 := h1.mpr n1
    have k2 := h2.mpr n2
    have k3 := h3.mpr n3
    have k4 := h4.mpr n4
    have z1 := s1 (by rw [k1.1, k1.2.1, k1.2.2.1, k1.2.2.2])
    have z2 := s2 (by rw [k2.1, k2.2.1, k2.2.2.1, k2.2.2.2])
    have z3 := s3 (by rw [k3.1, k3.2.1, k3.2.2.1, k3.2.2.2])
    have z4 := s4 (by rw [k4.1, k4.2.1, k4.2.2.1, k4.2.2.2])
    rw [z1, z2, z3, z4]
    exact ⟨⟨⟨⟨k1.1, k2.1, k3.1, k4.1⟩, ⟨k1.2.1, k2.2.1, k3.2.1, k4.2.1⟩,
      ⟨k1.2.2.1, k2.2.2.1, k3.2.2.1, k4.2.2.1⟩, k1.2.2.2, k2.2.2.2, k3.2.2.2, k4.2.2.2⟩,
      rfl⟩, rfl⟩

/- ============================================================
   C2 — legal moves and change detection
   ============================================================ -/

/-- C2: on every well-formed 4×4 board, a direction is in
`get_legal_moves()` exactly when applying the corresponding move would
change the board, and applying a direction that is not legal leaves the
game (board and score) unchanged and returns 0.  `get_legal_moves` is a
pure function of the game, so it cannot mutate the board. -/
theorem c2_legal_iff_change (g : Game) (d : Direction) (hsz : g.size = 4)
    (hb : g.board.length = 4) (hr : ∀ r ∈ g.board, r.length = 4) :
    (d ∈ g.get_legal_moves ↔ (apply_move d g).1.board ≠ g.board) ∧
    (d ∉ g.get_legal_moves → (apply_move d g).1 = g ∧ (apply_move d g).2 = 0) := by
  cases d
  · exact legal_left_iff_change g hsz hb hr
  · exact legal_right_iff_change g hsz hb hr
  · exact legal_up_iff_change g hsz hb hr
  · exact legal_down_iff_change g hsz hb hr

/-- Witness for C2: a concrete board on which UP is illegal (and indeed a
no-op) while LEFT is legal (and indeed changes the board). -/
theorem c2_legal_iff_change_witness :
    (Direction.UP ∈ (Game.mk [[2,2,0,0],[0,0,0,0],[0,0,0,0],[0,0,0,0]] 0 4).get_legal_moves ↔
      (apply_move Direction.UP (Game.mk [[2,2,0,0],[0,0,0,0],[0,0,0,0],[0,0,0,0]] 0 4)).1.board ≠
        (Game.mk [[2,2,0,0],[0,0,0,0],[0,0,0,0],[0,0,0,0]] 0 4).board) ∧
    (Direction.UP ∉ (Game.mk [[2,2,0,0],[0,0,0,0],[0,0,0,0],[0,0,0,0]] 0 4).get_legal_moves →
      (apply_move Direction.UP (Game.mk [[2,2,0,0],[0,0,0,0],[0,0,0,0],[0,0,0,0]] 0 4)).1 =
        Game.mk [[2,2,0,0],[0,0,0,0],[0,0,0,0],[0,0,0,0]] 0 4 ∧
      (apply_move Direction.UP (Game.mk [[2,2,0,0],[0,0,0,0],[0,0,0,0],[0,0,0,0]] 0 4)).2 = 0) :=
  c2_legal_iff_change (Game.mk [[2,2,0,0],[0,0,0,0],[0,0,0,0],[0,0,0,0]] 0 4) Direction.UP
    rfl rfl (by decide)

/- ============================================================
   Sum lemmas for C10 and C5
   ============================================================ -/

/-- The merge scan preserves the total tile value: a merge turns `v, v`
into `v * 2`. -/
theorem mp_sum : ∀ l : List Nat, (merge_pass l).1.sum = l.sum
  | [] => by simp [merge_pass]
  | [a] => by simp [merge_pass]
  | a :: b :: rest => by
    have h1 := mp_sum rest
    have h2 := mp_sum (b :: rest)
    simp only [merge_pass]
    split_ifs with h <;> simp_all [List.sum_cons] <;> omega

/-- Dropping zeros preserves the total tile value. -/
theorem filter_ne_zero_sum : ∀ l : List Nat, (l.filter (fun n => n != 0)).sum = l.sum
  | [] => by simp
  | a :: l => by
    have h := filter_ne_zero_sum l
    by_cases ha : a = 0 <;> simp [List.filter_cons, ha, h]

/-- Moving a row left preserves its total tile value. -/
theorem mlr_sum (n : Nat) (row : List Nat) : (move_left_row n row).1.sum = row.sum := by
  simp [move_left_row, mp_sum, filter_ne_zero_sum, List.sum_replicate]

/-- Moving a row right preserves its total tile value. -/
theorem mrr_sum (n : Nat) (row : List Nat) : (move_right_row n row).1.sum = row.sum := by
  have h := mp_sum (row.filter (fun n => n != 0)).reverse
  simp only [List.sum_reverse] at h
  simp [move_right_row, List.sum_reverse, h, filter_ne_zero_sum, List.sum_replicate]

/-- `move_left` preserves the board total. -/
theorem move_left_sum (g : Game) : board_sum (g.move_left).1 = board_sum g := by
  obtain ⟨b, s, sz⟩ := g
  simp only [Game.move_left, board_sum, List.map_map]
  induction b with
  | nil => rfl
  | cons r rs ih =>
    simp only [List.map_cons, List.sum_cons] at *
    rw [ih]
    simp [Function.comp, mlr_sum]

/-- `move_right` preserves the board total. -/
theorem move_right_sum (g : Game) : board_sum (g.move_right).1 = board_sum g := by
  obtain ⟨b, s, sz⟩ := g
  simp only [Game.move_right, board_sum, List.map_map]
  induction b with
  | nil => rfl
  | cons r rs ih =>
    simp only [List.map_cons, List.sum_cons] at *
    rw [ih]
    simp [Function.comp, mrr_sum]

/-- `move_up` preserves the board total on a well-formed 4×4 board. -/
theorem move_up_sum (g : Game) (hsz : g.size = 4) (hb : g.board.length = 4)
    (hr : ∀ r ∈ g.board, r.length = 4) : board_sum (g.move_up).1 = board_sum g := by
  obtain ⟨b, s, sz⟩ := g
  simp only at hsz hb hr ⊢
  subst hsz
  obtain ⟨r1, r2, r3, r4, rfl⟩ : ∃ r1 r2 r3 r4, b = [r1, r2, r3, r4] := by
    match b, hb with
    | [r1, r2, r3, r4], _ => exact ⟨r1, r2, r3, r4, rfl⟩
  obtain ⟨a1, a2, a3, a4, rfl⟩ := list_len4 r1 (hr r1 (by simp))
  obtain ⟨b1, b2, b3, b4, rfl⟩ := list_len4 r2 (hr r2 (by simp))
  obtain ⟨c1, c2, c3, c4, rfl⟩ := list_len4 r3 (hr r3 (by simp))
  obtain ⟨d1, d2, d3, d4, rfl⟩ := list_len4 r4 (hr r4 (by simp))
  have hrange : List.range 4 = [0, 1, 2, 3] := rfl
  have g1 := mlr_sum 4 [a1, b1, c1, d1]
  have g2 := mlr_sum 4 [a2, b2, c2, d2]
  have g3 := mlr_sum 4 [a3, b3, c3, d3]
  have g4 := mlr_sum 4 [a4, b4, c4, d4]
  obtain ⟨q1, t1, hm1⟩ : ∃ q t, move_left_row 4 [a1, b1, c1, d1] = (q, t) := ⟨_, _, rfl⟩
  obtain ⟨q2, t2, hm2⟩ : ∃ q t, move_left_row 4 [a2, b2, c2, d2] = (q, t) := ⟨_, _, rfl⟩
  obtain ⟨q3, t3, hm3⟩ : ∃ q t, move_left_row 4 [a3, b3, c3, d3] = (q, t) := ⟨_, _, rfl⟩
  obtain ⟨q4, t4, hm4⟩ : ∃ q t, move_left_row 4 [a4, b4, c4, d4] = (q, t) := ⟨_, _, rfl⟩
  obtain ⟨u1, u2, u3, u4, rfl⟩ := list_len4 q1 (by
    have := mlr_length [a1, b1, c1, d1] 4 (by simp)
    rw [hm1] at this; exact this)
  obtain ⟨v1, v2, v3, v4, rfl⟩ := list_len4 q2 (by
    have := mlr_length [a2, b2, c2, d2] 4 (by simp)
    rw [hm2] at this; exact this)
  obtain ⟨w1, w2, w3, w4, rfl⟩ := list_len4 q3 (by
    have := mlr_length [a3, b3, c3, d3] 4 (by simp)
    rw [hm3] at this; exact this)
  obtain ⟨x1, x2, x3, x4, rfl⟩ := list_len4 q4 (by
    have := mlr_length [a4, b4, c4, d4] 4 (by simp)
    rw [hm4] at this; exact this)
  rw [hm1] at g1
  rw [hm2] at g2
  rw [hm3] at g3
  rw [hm4] at g4
  simp only [List.sum_cons, List.sum_nil] at g1 g2 g3 g4
  have hcol0 : Game.column ⟨[[a1,a2,a3,a4],[b1,b2,b3,b4],[c1,c2,c3,c4],[d1,d2,d3,d4]], s, 4⟩ 0
      = [a1, b1, c1, d1] := rfl
  have hcol1 : Game.column ⟨[[a1,a2,a3,a4],[b1,b2,b3,b4],[c1,c2,c3,c4],[d1,d2,d3,d4]], s, 4⟩ 1
      = [a2, b2, c2, d2] := rfl
  have hcol2 : Game.column ⟨[[a1,a2,a3,a4],[b1,b2,b3,b4],[c1,c2,c3,c4],[d1,d2,d3,d4]], s, 4⟩ 2
      = [a3, b3, c3, d3] := rfl
  have hcol3 : Game.column ⟨[[a1,a2,a3,a4],[b1,b2,b3,b4],[c1,c2,c3,c4],[d1,d2,d3,d4]], s, 4⟩ 3
      = [a4, b4, c4, d4] := rfl
  simp only [Game.move_up, board_sum, hrange, hcol0, hcol1, hcol2, hcol3, List.map,
    hm1, hm2, hm3, hm4, List.getD_cons_zero, List.getD_cons_succ, List.sum_cons, List.sum_nil]
  omega

/-- `move_down` preserves the board total on a well-formed 4×4 board. -/
theorem move_down_sum (g : Game) (hsz : g.size = 4) (hb : g.board.length = 4)
    (hr : ∀ r ∈ g.board, r.length = 4) : board_sum (g.move_down).1 = board_sum g := by
  obtain ⟨b, s, sz⟩ := g
  simp only at hsz hb hr ⊢
  subst hsz
  obtain ⟨r1, r2, r3, r4, rfl⟩ : ∃ r1 r2 r3 r4, b = [r1, r2, r3, r4] := by
    match b, hb with
    | [r1, r2, r3, r4], _ => exact ⟨r1, r2, r3, r4, rfl⟩
  obtain ⟨a1, a2, a3, a4, rfl⟩ := list_len4 r1 (hr r1 (by simp))
  obtain ⟨b1, b2, b3, b4, rfl⟩ := list_len4 r2 (hr r2 (by simp))
  obtain ⟨c1, c2, c3, c4, rfl⟩ := list_len4 r3 (hr r3 (by simp))
  obtain ⟨d1, d2, d3, d4, rfl⟩ := list_len4 r4 (hr r4 (by simp))
  have hrange : List.range 4 = [0, 1, 2, 3] := rfl
  have g1 := mrr_sum 4 [a1, b1, c1, d1]
  have g2 := mrr_sum 4 [a2, b2, c2, d2]
  have g3 := mrr_sum 4 [a3, b3, c3, d3]
  have g4 := mrr_sum 4 [a4, b4, c4, d4]
  obtain ⟨q1, t1, hm1⟩ : ∃ q t, move_right_row 4 [a1, b1, c1, d1] = (q, t) := ⟨_, _, rfl⟩
  obtain ⟨q2, t2, hm2⟩ : ∃ q t, move_right_row 4 [a2, b2, c2, d2] = (q, t) := ⟨_, _, rfl⟩
  obtain ⟨q3, t3, hm3⟩ : ∃ q t, move_right_row 4 [a3, b3, c3, d3] = (q, t) := ⟨_, _, rfl⟩
  obtain ⟨q4, t4, hm4⟩ : ∃ q t, move_right_row 4 [a4, b4, c4, d4] = (q, t) := ⟨_, _, rfl⟩
  obtain ⟨u1, u2, u3, u4, rfl⟩ := list_len4 q1 (by
    have := mrr_length [a1, b1, c1, d1] 4 (by simp)
    rw [hm1] at this; exact this)
  obtain ⟨v1, v2, v3, v4, rfl⟩ := list_len4 q2 (by
    have := mrr_length [a2, b2, c2, d2] 4 (by simp)
    rw [hm2] at this; exact this)
  obtain ⟨w1, w2, w3, w4, rfl⟩ := list_len4 q3 (by
    have := mrr_length [a3, b3, c3, d3] 4 (by simp)
    rw [hm3] at this; exact this)
  obtain ⟨x1, x2, x3, x4, rfl⟩ := list_len4 q4 (by
    have := mrr_length [a4, b4, c4, d4] 4 (by simp)
    rw [hm4] at this; exact this)
  rw [hm1] at g1
  rw [hm2] at g2
  rw [hm3] at g3
  rw [hm4] at g4
  simp only [List.sum_cons, List.sum_nil] at g1 g2 g3 g4
  have hcol0 : Game.column ⟨[[a1,a2,a3,a4],[b1,b2,b3,b4],[c1,c2,c3,c4],[d1,d2,d3,d4]], s, 4⟩ 0
      = [a1, b1, c1, d1] := rfl
  have hcol1 : Game.column ⟨[[a1,a2,a3,a4],[b1,b2,b3,b4],[c1,c2,c3,c4],[d1,d2,d3,d4]], s, 4⟩ 1
      = [a2, b2, c2, d2] := rfl
  have hcol2 : Game.column ⟨[[a1,a2,a3,a4],[b1,b2,b3,b4],[c1,c2,c3,c4],[d1,d2,d3,d4]], s, 4⟩ 2
      = [a3, b3, c3, d3] := rfl
  have hcol3 : Game.column ⟨[[a1,a2,a3,a4],[b1,b2,b3,b4],[c1,c2,c3,c4],[d1,d2,d3,d4]], s, 4⟩ 3
      = [a4, b4, c4, d4] := rfl
  simp only [Game.move_down, board_sum, hrange, hcol0, hcol1, hcol2, hcol3, List.map,
    hm1, hm2, hm3, hm4, List.getD_cons_zero, List.getD_cons_succ, List.sum_cons, List.sum_nil]
  omega

/- ============================================================
   C10 — moves preserve the total tile value
   ============================================================ -/

/-- C10: on every well-formed 4×4 board, applying any single move
operation leaves the total of all tile values unchanged — each merge
replaces two tiles of value `v` by one tile of value `2v`, and compaction
only relocates tiles. -/
theorem c10_move_preserves_sum (g : Game) (d : Direction) (hsz : g.size = 4)
    (hb : g.board.length = 4) (hr : ∀ r ∈ g.board, r.length = 4) :
    board_sum (apply_move d g).1 = board_sum g := by
  cases d
  · exact move_left_sum g
  · exact move_right_sum g
  · exact move_up_sum g hsz hb hr
  · exact move_down_sum g hsz hb hr

/-- Witness for C10: a merging DOWN move on a concrete board. -/
theorem c10_move_preserves_sum_witness :
    board_sum (apply_move Direction.DOWN (Game.mk [[2,2,0,0],[2,4,0,0],[0,0,0,0],[0,0,0,0]] 0 4)).1 =
      board_sum (Game.mk [[2,2,0,0],[2,4,0,0],[0,0,0,0],[0,0,0,0]] 0 4) :=
  c10_move_preserves_sum (Game.mk [[2,2,0,0],[2,4,0,0],[0,0,0,0],[0,0,0,0]] 0 4) Direction.DOWN
    rfl rfl (by decide)

/- ============================================================
   Membership and cell-update lemmas for C5 and C6
   ============================================================ -/

/-- Every output of the merge scan is an input value or the double of one. -/
theorem mp_mem : ∀ l : List Nat, ∀ x ∈ (merge_pass l).1, x ∈ l ∨ ∃ y ∈ l, x = y * 2
  | [] => by simp [merge_pass]
  | [a] => by simp [merge_pass]
  | a :: b :: rest => by
    intro x hx
    have h1 := mp_mem rest
    have h2 := mp_mem (b :: rest)
    simp only [merge_pass] at hx
    split_ifs at hx with hab
    · simp only [List.mem_cons] at hx
      rcases hx with rfl | hx
      · exact .inr ⟨a, by simp⟩
      · rcases h1 x hx with h | ⟨y, hy, rfl⟩
        · exact .inl (by simp [h])
        · exact .inr ⟨y, by simp [hy]⟩
    · simp only [List.mem_cons] at hx
      rcases hx with rfl | hx
      · exact .inl (by simp)
      · rcases h2 x hx with h | ⟨y, hy, rfl⟩
        · simp only [List.mem_cons] at h
          exact .inl (by simp [h])
        · simp only [List.mem_cons] at hy
          exact .inr ⟨y, by simp [hy]⟩

/-- Every cell of a left-moved row is zero, an original value, or the
double of an original value. -/
theorem mlr_mem (n : Nat) (row : List Nat) :
    ∀ x ∈ (move_left_row n row).1, x = 0 ∨ x ∈ row ∨ ∃ y ∈ row, x = y * 2 := by
  intro x hx
  simp only [move_left_row, List.mem_append] at hx
  rcases hx with hx | hx
  · rcases mp_mem _ x hx with h | ⟨y, hy, rfl⟩
    · exact .inr (.inl (List.mem_of_mem_filter h))
    · exact .inr (.inr ⟨y, List.mem_of_mem_filter hy, rfl⟩)
  · exact .inl (List.eq_of_mem_replicate hx)

/-- Every cell of a right-moved row is zero, an original value, or the
double of an original value. -/
theorem mrr_mem (n : Nat) (row : List Nat) :
    ∀ x ∈ (move_right_row n row).1, x = 0 ∨ x ∈ row ∨ ∃ y ∈ row, x = y * 2 := by
  intro x hx
  simp only [move_right_row, List.mem_append, List.mem_reverse] at hx
  rcases hx with hx | hx
  · exact .inl (List.eq_of_mem_replicate hx)
  · rcases mp_mem _ x hx with h | ⟨y, hy, rfl⟩
    · rw [List.mem_reverse] at h
      exact .inr (.inl (List.mem_of_mem_filter h))
    · rw [List.mem_reverse] at hy
      exact .inr (.inr ⟨y, List.mem_of_mem_filter hy, rfl⟩)

/-- A defaulted index read is an element of the list or the default. -/
theorem getD_mem_or {α : Type} : ∀ (l : List α) (i : Nat) (d : α), l.getD i d ∈ l ∨ l.getD i d = d
  | [], _, d => .inr (by simp)
  | a :: l, 0, d => .inl (by simp)
  | a :: l, i + 1, d => by
    rw [List.getD_cons_succ]
    rcases getD_mem_or l i d with h | h
    · exact .inl (List.mem_cons_of_mem a h)
    · exact .inr h

/-- A defaulted index read within bounds is an element of the list. -/
theorem getD_mem_of_lt {α : Type} :
    ∀ (l : List α) (i : Nat) (d : α), i < l.length → l.getD i d ∈ l
  | a :: l, 0, d, _ => by simp
  | a :: l, i + 1, d, h => by
    rw [List.getD_cons_succ]
    exact List.mem_cons_of_mem a (getD_mem_of_lt l i d (by simpa using h))

/-- Writing within bounds makes the written cell read back the new value. -/
theorem set_getD_eq {α : Type} :
    ∀ (l : List α) (i : Nat) (v d : α), i < l.length → (l.set i v).getD i d = v
  | a :: l, 0, v, d, _ => rfl
  | a :: l, i + 1, v, d, h => by
    simpa [List.set_cons_succ, List.getD_cons_succ] using
      set_getD_eq l i v d (by simpa using h)

/-- Writing one cell leaves every other index unchanged. -/
theorem set_getD_ne {α : Type} :
    ∀ (l : List α) (i j : Nat) (v d : α), j ≠ i → (l.set i v).getD j d = l.getD j d
  | [], _, _, _, _, _ => by simp
  | a :: l, 0, 0, v, d, h => absurd rfl h
  | a :: l, 0, j + 1, v, d, h => by simp [List.getD_cons_succ]
  | a :: l, i + 1, 0, v, d, h => by simp
  | a :: l, i + 1, j + 1, v, d, h => by
    simpa [List.set_cons_succ, List.getD_cons_succ] using
      set_getD_ne l i j v d (by omega)

/-- Characterisation of `get_empty_tiles`: exactly the in-range positions
holding a zero. -/
theorem mem_empty_tiles (g : Game) (x y : Nat) :
    (x, y) ∈ g.get_empty_tiles ↔
      x < g.board.length ∧ y < (g.board.getD x []).length ∧
        (g.board.getD x []).getD y 0 = 0 := by
  simp only [Game.get_empty_tiles, List.mem_flatMap, List.mem_filterMap, List.mem_range,
    Option.ite_none_right_eq_some, Option.some.injEq, Prod.mk.injEq]
  constructor
  · rintro ⟨a, ha, b, hb, hcell, rfl, rfl⟩
    exact ⟨ha, hb, hcell⟩
  · rintro ⟨hx, hy, hcell⟩
    exact ⟨x, hx, y, hy, hcell, rfl, rfl⟩

/-- The empty-tile list is empty exactly when no cell holds a zero. -/
theorem empty_tiles_nil_iff (g : Game) :
    g.get_empty_tiles = [] ↔ ∀ row ∈ g.board, ∀ v ∈ row, v ≠ 0 := by
  rw [List.eq_nil_iff_forall_not_mem]
  constructor
  · intro h row hrow v hv hv0
    obtain ⟨i, hi, hrow_eq⟩ := List.getElem_of_mem hrow
    obtain ⟨j, hj, hv_eq⟩ := List.getElem_of_mem hv
    apply h (i, j)
    rw [mem_empty_tiles]
    have hgd : g.board.getD i [] = row := by rw [List.getD_eq_getElem _ _ hi, hrow_eq]
    refine ⟨hi, ?_, ?_⟩
    · rw [hgd]; exact hj
    · rw [hgd, List.getD_eq_getElem _ _ hj, hv_eq, hv0]
  · intro h p hp
    obtain ⟨x, y⟩ := p
    rw [mem_empty_tiles] at hp
    obtain ⟨hx, hy, hcell⟩ := hp
    have hrow := getD_mem_of_lt g.board x [] hx
    have hv := getD_mem_of_lt (g.board.getD x []) y 0 hy
    exact h _ hrow _ hv hcell

/-- Overwriting one in-range entry changes the list total by the new value
minus the overwritten one. -/
theorem sum_set : ∀ (l : List Nat) (i : Nat) (v : Nat), i < l.length →
    (l.set i v).sum + l.getD i 0 = l.sum + v
  | a :: l, 0, v, _ => by simp [List.sum_cons]; omega
  | a :: l, i + 1, v, h => by
    have := sum_set l i v (by simpa using h)
    simp only [List.set_cons_succ, List.sum_cons, List.getD_cons_succ]
    omega

/-- Writing a fresh value into an empty in-range cell raises the board
total by exactly that value. -/
theorem board_sum_set : ∀ (b : List (List Nat)) (x y v : Nat), x < b.length →
    y < (b.getD x []).length → (b.getD x []).getD y 0 = 0 →
    ((set_tile b x y v).map List.sum).sum = (b.map List.sum).sum + v
  | r :: b, 0, y, v, _, hy, hzero => by
    have := sum_set r y v (by simpa using hy)
    simp only [List.getD_cons_zero] at hzero
    rw [hzero] at this
    simp only [set_tile, List.getD_cons_zero, List.set_cons_zero, List.map_cons, List.sum_cons]
    omega
  | r :: b, x + 1, y, v, hx, hy, hzero => by
    have := board_sum_set b x y v (by simpa using hx)
      (by simpa [List.getD_cons_succ] using hy) (by simpa [List.getD_cons_succ] using hzero)
    simp only [set_tile, List.getD_cons_succ, List.set_cons_succ, List.map_cons,
      List.sum_cons] at *
    omega

/-- Every move preserves the board total (helper shared by several
claims). -/
theorem apply_move_sum (g : Game) (d : Direction) (hsz : g.size = 4)
    (hb : g.board.length = 4) (hr : ∀ r ∈ g.board, r.length = 4) :
    board_sum (apply_move d g).1 = board_sum g := by
  cases d
  · exact move_left_sum g
  · exact move_right_sum g
  · exact move_up_sum g hsz hb hr
  · exact move_down_sum g hsz hb hr

/-- Every move preserves the power-of-two invariant: new cells are old
cells, doubles of old cells, or padding zeros. -/
theorem move_all_pow2 (d : Direction) (g : Game) (h : all_pow2 g) :
    all_pow2 (apply_move d g).1 := by
  have hcol : ∀ y, ∀ v ∈ g.column y, v ≠ 0 → ∃ k, v = 2 ^ k := by
    intro y v hv hv0
    simp only [Game.column, List.mem_map] at hv
    obtain ⟨row, hrow, rfl⟩ := hv
    rcases getD_mem_or row y 0 with hm | hm
    · exact h row hrow _ hm hv0
    · exact absurd hm hv0
  have hdouble : ∀ (w : Nat), (∃ k, w = 2 ^ k) → ∃ k, w * 2 = 2 ^ k := by
    rintro w ⟨k, rfl⟩
    exact ⟨k + 1, by ring⟩
  cases d
  · intro row hrow x hx hx0
    simp only [apply_move, Game.move_left, List.map_map, List.mem_map, Function.comp] at hrow
    obtain ⟨r, hrmem, rfl⟩ := hrow
    rcases mlr_mem _ r x hx with rfl | hmem | ⟨y, hy, rfl⟩
    · exact absurd rfl hx0
    · exact h r hrmem x hmem hx0
    · exact hdouble y (h r hrmem y hy (by rintro rfl; exact hx0 (by simp)))
  · intro row hrow x hx hx0
    simp only [apply_move, Game.move_right, List.map_map, List.mem_map, Function.comp] at hrow
    obtain ⟨r, hrmem, rfl⟩ := hrow
    rcases mrr_mem _ r x hx with rfl | hmem | ⟨y, hy, rfl⟩
    · exact absurd rfl hx0
    · exact h r hrmem x hmem hx0
    · exact hdouble y (h r hrmem y hy (by rintro rfl; exact hx0 (by simp)))
  · intro row hrow x hx hx0
    simp only [apply_move, Game.move_up, List.mem_map, List.mem_range] at hrow
    obtain ⟨j, hj, rfl⟩ := hrow
    simp only [List.mem_map, List.mem_range] at hx
    obtain ⟨y, hy, rfl⟩ := hx
    rcases getD_mem_or ((List.range g.size).map fun y => move_left_row g.size (g.column y))
        y ([], 0) with hres | hres
    · rw [List.mem_map] at hres
      obtain ⟨y2, hy2, heq⟩ := hres
      rw [← heq] at hx0 ⊢
      rcases getD_mem_or (move_left_row g.size (g.column y2)).1 j 0 with hm | hm
      · rcases mlr_mem _ _ _ hm with h0 | hmem | ⟨w, hw, hww⟩
        · exact absurd h0 hx0
        · exact hcol y2 _ hmem hx0
        · rw [hww] at hx0 ⊢
          have hw0 : w ≠ 0 := by rintro rfl; exact hx0 (by simp)
          exact hdouble w (hcol y2 w hw hw0)
      · exact absurd hm hx0
    · rw [hres] at hx0
      exact absurd (by simp) hx0
  · intro row hrow x hx hx0
    simp only [apply_move, Game.move_down, List.mem_map, List.mem_range] at hrow
    obtain ⟨j, hj, rfl⟩ := hrow
    simp only [List.mem_map, List.mem_range] at hx
    obtain ⟨y, hy, rfl⟩ := hx
    rcases getD_mem_or ((List.range g.size).map fun y => move_right_row g.size (g.column y))
        y ([], 0) with hres | hres
    · rw [List.mem_map] at hres
      obtain ⟨y2, hy2, heq⟩ := hres
      rw [← heq] at hx0 ⊢
      rcases getD_mem_or (move_right_row g.size (g.column y2)).1 j 0 with hm | hm
      · rcases mrr_mem _ _ _ hm with h0 | hmem | ⟨w, hw, hww⟩
        · exact absurd h0 hx0
        · exact hcol y2 _ hmem hx0
        · rw [hww] at hx0 ⊢
          have hw0 : w ≠ 0 := by rintro rfl; exact hx0 (by simp)
          exact hdouble w (hcol y2 w hw hw0)
      · exact absurd hm hx0
    · rw [hres] at hx0
      exact absurd (by simp) hx0

/- ============================================================
   C5 — move+spawn invariants
   ============================================================ -/

/-- Counterexample to C5 as stated: moving `[2,2,0,0]` LEFT merges for a
reward of 4 and then spawning a 2 gives a board whose total is 6, not
`4 + (4 + 2) = 10`: the move itself does not change the total, so the sum
does not increase by the merge gains plus the spawned value. -/
theorem c5_counterexample :
    (apply_move Direction.LEFT
        (Game.mk [[2,2,0,0],[0,0,0,0],[0,0,0,0],[0,0,0,0]] 0 4)).1.spawn_tile true 0 =
      Except.ok (Game.mk [[4,2,0,0],[0,0,0,0],[0,0,0,0],[0,0,0,0]] 4 4) ∧
    (apply_move Direction.LEFT
        (Game.mk [[2,2,0,0],[0,0,0,0],[0,0,0,0],[0,0,0,0]] 0 4)).2 = 4 ∧
    board_sum (Game.mk [[4,2,0,0],[0,0,0,0],[0,0,0,0],[0,0,0,0]] 4 4) ≠
      board_sum (Game.mk [[2,2,0,0],[0,0,0,0],[0,0,0,0],[0,0,0,0]] 0 4) +
        ((apply_move Direction.LEFT
            (Game.mk [[2,2,0,0],[0,0,0,0],[0,0,0,0],[0,0,0,0]] 0 4)).2 + 2) :=
  ⟨rfl, rfl, by decide⟩

/-- C5 (amended): after any move followed by a successful `spawn_tile`,
every non-zero cell is still a power of 2, and the total of all tile
values increases by exactly the value of the spawned tile — the move
itself preserves the total, so the merge gains returned by the move do
not additionally contribute. -/
theorem c5_pow2_and_spawn_sum (g : Game) (d : Direction) (coin : Bool) (pick : Nat)
    (hsz : g.size = 4) (hb : g.board.length = 4) (hr : ∀ r ∈ g.board, r.length = 4)
    (hp : all_pow2 g) (hpick : pick < ((apply_move d g).1.get_empty_tiles).length) :
    ∃ g2, (apply_move d g).1.spawn_tile coin pick = Except.ok g2 ∧ all_pow2 g2 ∧
      board_sum g2 = board_sum g + (if coin then 2 else 4) := by
  have hpm := move_all_pow2 d g hp
  have hne : (apply_move d g).1.get_empty_tiles ≠ [] := by
    intro h
    rw [h] at hpick
    simp at hpick
  obtain ⟨px, py, hpxy⟩ :
      ∃ a b, ((apply_move d g).1.get_empty_tiles).getD pick (0, 0) = (a, b) := ⟨_, _, rfl⟩
  have hmem : (px, py) ∈ (apply_move d g).1.get_empty_tiles := by
    rw [← hpxy]
    exact getD_mem_of_lt _ _ _ hpick
  obtain ⟨hx, hy, hcell⟩ := (mem_empty_tiles _ px py).mp hmem
  refine ⟨{ (apply_move d g).1 with
      board := set_tile (apply_move d g).1.board px py (if coin then 2 else 4) }, ?_, ?_, ?_⟩
  · simp only [Game.spawn_tile, hpxy, if_pos hne]
  · intro row hrow v hv hv0
    rcases List.mem_or_eq_of_mem_set hrow with hrmem | rfl
    · exact hpm row hrmem v hv hv0
    · rcases List.mem_or_eq_of_mem_set hv with hvmem | rfl
      · have hrow0 : (apply_move d g).1.board.getD px [] ∈ (apply_move d g).1.board :=
          getD_mem_of_lt _ _ _ hx
        exact hpm _ hrow0 v hvmem hv0
      · cases coin
        · exact ⟨2, rfl⟩
        · exact ⟨1, rfl⟩
  · show (List.map List.sum (set_tile (apply_move d g).1.board px py _)).sum = _
    rw [board_sum_set _ px py _ hx hy hcell, ← board_sum,
      apply_move_sum g d hsz hb hr]

/-- Witness for C5 (amended) at a concrete merging move and spawn. -/
theorem c5_pow2_and_spawn_sum_witness :
    ∃ g2, (apply_move Direction.LEFT
        (Game.mk [[2,2,0,0],[0,0,0,0],[0,0,0,0],[0,0,0,0]] 0 4)).1.spawn_tile true 0 =
      Except.ok g2 ∧ all_pow2 g2 ∧
      board_sum g2 = board_sum (Game.mk [[2,2,0,0],[0,0,0,0],[0,0,0,0],[0,0,0,0]] 0 4) +
        (if true then 2 else 4) :=
  c5_pow2_and_spawn_sum (Game.mk [[2,2,0,0],[0,0,0,0],[0,0,0,0],[0,0,0,0]] 0 4)
    Direction.LEFT true 0 rfl rfl (by decide)
    (by
      intro row hrow x hx hx0
      fin_cases hrow <;> fin_cases hx <;> first | exact ⟨1, rfl⟩ | exact absurd rfl hx0)
    (by decide)

/- ============================================================
   C6 — spawn_tile semantics
   ============================================================ -/

/-- Counterexample to C6 as stated: on a full board `spawn_tile` raises
the built-in `ValueError`, not an exception called `InvalidStateError` —
no such class exists anywhere in the source. -/
theorem c6_counterexample :
    ¬ ∃ msg, (Game.mk [[2,4,2,4],[4,2,4,2],[2,4,2,4],[4,2,4,2]] 0 4).spawn_tile true 0 =
      Except.error (PyError.invalidStateError msg) := by
  rintro ⟨msg, h⟩
  rw [show (Game.mk [[2,4,2,4],[4,2,4,2],[2,4,2,4],[4,2,4,2]] 0 4).spawn_tile true 0 =
      Except.error (PyError.valueError "Cannot add new tile: board is full.") from rfl] at h
  simp at h

/-- C6 (amended): `spawn_tile` fails — with the built-in `ValueError`,
the exception the spec calls `InvalidStateError` — exactly when the board
has no empty cell; otherwise it changes exactly one cell, previously 0,
setting it to 2 (when the 90% branch is taken) or 4, and leaves every
other cell, the score and the grid size unchanged. -/
theorem c6_spawn_tile (g : Game) (coin : Bool) (pick : Nat) :
    (g.spawn_tile coin pick =
        Except.error (PyError.valueError "Cannot add new tile: board is full.") ↔
      ∀ row ∈ g.board, ∀ v ∈ row, v ≠ 0) ∧
    (pick < g.get_empty_tiles.length →
      ∃ x y, x < g.board.length ∧ y < (g.board.getD x []).length ∧
        (g.board.getD x []).getD y 0 = 0 ∧
        ∃ g2, g.spawn_tile coin pick = Except.ok g2 ∧
          g2.score = g.score ∧ g2.size = g.size ∧
          (g2.board.getD x []).getD y 0 = (if coin then 2 else 4) ∧
          ∀ i j : Nat, ¬(i = x ∧ j = y) →
            (g2.board.getD i []).getD j 0 = (g.board.getD i []).getD j 0) := by
  constructor
  · rw [← empty_tiles_nil_iff]
    constructor
    · intro h
      by_contra hne
      simp only [Game.spawn_tile, if_pos hne] at h
      exact Except.noConfusion h
    · intro h
      simp only [Game.spawn_tile, h]
      simp
  · intro hpick
    have hne : g.get_empty_tiles ≠ [] := by
      intro h
      rw [h] at hpick
      simp at hpick
    obtain ⟨px, py, hpxy⟩ : ∃ a b, (g.get_empty_tiles).getD pick (0, 0) = (a, b) := ⟨_, _, rfl⟩
    have hmem : (px, py) ∈ g.get_empty_tiles := by
      rw [← hpxy]
      exact getD_mem_of_lt _ _ _ hpick
    obtain ⟨hx, hy, hcell⟩ := (mem_empty_tiles _ px py).mp hmem
    refine ⟨px, py, hx, hy, hcell,
      { g with board := set_tile g.board px py (if coin then 2 else 4) }, ?_, rfl, rfl, ?_, ?_⟩
    · simp only [Game.spawn_tile, hpxy, if_pos hne]
    · show ((g.board.set px ((g.board.getD px []).set py _)).getD px []).getD py 0 = _
      rw [set_getD_eq _ px _ _ hx, set_getD_eq _ py _ _ hy]
    · intro i j hij
      show ((g.board.set px ((g.board.getD px []).set py _)).getD i []).getD j 0 = _
      by_cases hi : i = px
      · subst hi
        have hj : j ≠ py := by tauto
        rw [set_getD_eq _ i _ _ hx, set_getD_ne _ py j _ _ hj]
      · rw [set_getD_ne _ px i _ _ hi]

/-- Witness for C6 (amended) on a concrete board with empty cells. -/
theorem c6_spawn_tile_witness :
    ((Game.mk [[2,2,0,0],[0,0,0,0],[0,0,0,0],[0,0,0,0]] 0 4).spawn_tile false 1 =
        Except.error (PyError.valueError "Cannot add new tile: board is full.") ↔
      ∀ row ∈ (Game.mk [[2,2,0,0],[0,0,0,0],[0,0,0,0],[0,0,0,0]] 0 4).board,
        ∀ v ∈ row, v ≠ 0) ∧
    (1 < (Game.mk [[2,2,0,0],[0,0,0,0],[0,0,0,0],[0,0,0,0]] 0 4).get_empty_tiles.length →
      ∃ x y, x < (Game.mk [[2,2,0,0],[0,0,0,0],[0,0,0,0],[0,0,0,0]] 0 4).board.length ∧
        y < ((Game.mk [[2,2,0,0],[0,0,0,0],[0,0,0,0],[0,0,0,0]] 0 4).board.getD x []).length ∧
        ((Game.mk [[2,2,0,0],[0,0,0,0],[0,0,0,0],[0,0,0,0]] 0 4).board.getD x []).getD y 0 = 0 ∧
        ∃ g2, (Game.mk [[2,2,0,0],[0,0,0,0],[0,0,0,0],[0,0,0,0]] 0 4).spawn_tile false 1 =
            Except.ok g2 ∧
          g2.score = (Game.mk [[2,2,0,0],[0,0,0,0],[0,0,0,0],[0,0,0,0]] 0 4).score ∧
          g2.size = (Game.mk [[2,2,0,0],[0,0,0,0],[0,0,0,0],[0,0,0,0]] 0 4).size ∧
          (g2.board.getD x []).getD y 0 = (if false then 2 else 4) ∧
          ∀ i j : Nat, ¬(i = x ∧ j = y) →
            (g2.board.getD i []).getD j 0 =
              ((Game.mk [[2,2,0,0],[0,0,0,0],[0,0,0,0],[0,0,0,0]] 0 4).board.getD i []).getD j 0) :=
  c6_spawn_tile (Game.mk [[2,2,0,0],[0,0,0,0],[0,0,0,0],[0,0,0,0]] 0 4) false 1

/- ============================================================
   C8 — copy semantics
   ============================================================ -/

/-- C8: `copy()` (modelled from the spec, since `game.py` only has its
callers) yields a state with equal board contents and score, and the
agents' afterstate and successor exploration applies moves to the copy.
In this pure embedding the original game value cannot be mutated, so
exploration leaves the state under evaluation unchanged by
construction. -/
theorem c8_copy_semantics (g : Game) :
    g.copy.board = g.board ∧ g.copy.score = g.score ∧ g.copy.size = g.size ∧
    (∀ a, compute_afterstate g a = apply_move a g.copy) ∧
    (∀ a, generateSuccessor g a = (apply_move a g.copy).1) :=
  ⟨rfl, rfl, rfl, fun _ => rfl, fun _ => rfl⟩

/- ============================================================
   C7 — evaluate_action
   ============================================================ -/

/-- Counterexample to C7 as stated for the experimental agent: moving
`[[128,128,0,0], 0..]` LEFT puts a 256 in the corner `(0,0)`, so its
`evaluate_action` adds a corner bonus of `256 >> 1 = 128` on top of
reward + afterstate value (384 versus 256 with all-zero tables). -/
theorem c7_counterexample :
    x_evaluate_action ⟨fun _ _ => 0, 1 / 200⟩
        (Game.mk [[128,128,0,0],[0,0,0,0],[0,0,0,0],[0,0,0,0]] 0 4) Direction.LEFT ≠
      ((compute_afterstate (Game.mk [[128,128,0,0],[0,0,0,0],[0,0,0,0],[0,0,0,0]] 0 4)
          Direction.LEFT).2 : ℚ) +
        x_evaluate_state ⟨fun _ _ => 0, 1 / 200⟩
          (compute_afterstate (Game.mk [[128,128,0,0],[0,0,0,0],[0,0,0,0],[0,0,0,0]] 0 4)
            Direction.LEFT).1 := by
  have h1 : compute_afterstate (Game.mk [[128,128,0,0],[0,0,0,0],[0,0,0,0],[0,0,0,0]] 0 4)
      Direction.LEFT =
      (Game.mk [[256,0,0,0],[0,0,0,0],[0,0,0,0],[0,0,0,0]] 256 4, 256) := rfl
  have h2 : max_tile_pos (Game.mk [[256,0,0,0],[0,0,0,0],[0,0,0,0],[0,0,0,0]] 256 4) =
      (256, (0, 0)) := rfl
  simp only [x_evaluate_action, x_evaluate_state, h1, h2]
  norm_num [List.map_const', List.sum_replicate]

/-- C7 (amended): for the `TdLearningAgent` of `tdlearningagent.py`,
`evaluate_action(state, action)` is exactly the merge-score reward of the
action plus `evaluate_state` of the pre-spawn afterstate, with no other
term; the experimental agent's variant additionally adds corner
bonus/penalty terms derived from the maximum tile. -/
theorem c7_evaluate_action (ag : TdLearningAgent) (g : Game) (a : Direction) :
    evaluate_action ag g a =
      ((compute_afterstate g a).2 : ℚ) + evaluate_state ag (compute_afterstate g a).1 := rfl

/- ============================================================
   C4 — symmetries
   ============================================================ -/

set_option maxHeartbeats 2000000 in
/-- C4: `symmetries(state)` returns exactly the 8 boards — the identity,
the mirror (row order reversed), and the three non-trivial clockwise
rotations each without and with the mirror; one quarter turn satisfies
`new[i][j] = old[N-1-j][i]`; and all 8 boards carry the same multiset of
tile values as the input. -/
theorem c4_symmetries (g : Game) (hsz : g.size = 4) (hb : g.board.length = 4)
    (hr : ∀ r ∈ g.board, r.length = 4) :
    (symmetries g).length = 8 ∧
    symmetries g = [g, mirror g, rotate g 1, mirror (rotate g 1), rotate g 2,
      mirror (rotate g 2), rotate g 3, mirror (rotate g 3)] ∧
    (mirror g).board = g.board.reverse ∧
    (∀ i j : Fin 4, (((rotate g 1).board.getD i []).getD j 0) =
      ((g.board.getD (3 - (j : Nat)) []).getD i 0)) ∧
    (∀ s ∈ symmetries g, (s.board.flatten : Multiset Nat) = (g.board.flatten : Multiset Nat)) := by
  obtain ⟨b, s, sz⟩ := g
  simp only at hsz hb hr ⊢
  subst hsz
  obtain ⟨r1, r2, r3, r4, rfl⟩ : ∃ r1 r2 r3 r4, b = [r1, r2, r3, r4] := by
    match b, hb with
    | [r1, r2, r3, r4], _ => exact ⟨r1, r2, r3, r4, rfl⟩
  obtain ⟨a1, a2, a3, a4, rfl⟩ := list_len4 r1 (hr r1 (by simp))
  obtain ⟨b1, b2, b3, b4, rfl⟩ := list_len4 r2 (hr r2 (by simp))
  obtain ⟨c1, c2, c3, c4, rfl⟩ := list_len4 r3 (hr r3 (by simp))
  obtain ⟨d1, d2, d3, d4, rfl⟩ := list_len4 r4 (hr r4 (by simp))
  refine ⟨rfl, rfl, rfl, ?_, ?_⟩
  · intro i j
    fin_cases i <;> fin_cases j <;> rfl
  · intro srot hs
    fin_cases hs
    · rfl
    · apply Multiset.coe_eq_coe.mpr
      apply List.perm_iff_count.mpr
      intro v
      rw [show (mirror (Game.mk [[a1,a2,a3,a4],[b1,b2,b3,b4],[c1,c2,c3,c4],[d1,d2,d3,d4]] s 4)).board.flatten = [d1, d2, d3, d4, c1, c2, c3, c4, b1, b2, b3, b4, a1, a2, a3, a4] from rfl,
        show ([[a1,a2,a3,a4],[b1,b2,b3,b4],[c1,c2,c3,c4],[d1,d2,d3,d4]] :
          List (List Nat)).flatten = [a1, a2, a3, a4, b1, b2, b3, b4, c1, c2, c3, c4, d1, d2, d3, d4] from rfl]
      simp only [List.count_cons, List.count_nil]
      ring
    · apply Multiset.coe_eq_coe.mpr
      apply List.perm_iff_count.mpr
      intro v
      rw [show (rotate (Game.mk [[a1,a2,a3,a4],[b1,b2,b3,b4],[c1,c2,c3,c4],[d1,d2,d3,d4]] s 4) 1).board.flatten = [d1, c1, b1, a1, d2, c2, b2, a2, d3, c3, b3, a3, d4, c4, b4, a4] from rfl,
        show ([[a1,a2,a3,a4],[b1,b2,b3,b4],[c1,c2,c3,c4],[d1,d2,d3,d4]] :
          List (List Nat)).flatten = [a1, a2, a3, a4, b1, b2, b3, b4, c1, c2, c3, c4, d1, d2, d3, d4] from rfl]
      simp only [List.count_cons, List.count_nil]
      ring
    · apply Multiset.coe_eq_coe.mpr
      apply List.perm_iff_count.mpr
      intro v
      rw [show (mirror (rotate (Game.mk [[a1,a2,a3,a4],[b1,b2,b3,b4],[c1,c2,c3,c4],[d1,d2,d3,d4]] s 4) 1)).board.flatten = [d4, c4, b4, a4, d3, c3, b3, a3, d2, c2, b2, a2, d1, c1, b1, a1] from rfl,
        show ([[a1,a2,a3,a4],[b1,b2,b3,b4],[c1,c2,c3,c4],[d1,d2,d3,d4]] :
          List (List Nat)).flatten = [a1, a2, a3, a4, b1, b2, b3, b4, c1, c2, c3, c4, d1, d2, d3, d4] from rfl]
      simp only [List.count_cons, List.count_nil]
      ring
    · apply Multiset.coe_eq_coe.mpr
      apply List.perm_iff_count.mpr
      intro v
      rw [show (rotate (Game.mk [[a1,a2,a3,a4],[b1,b2,b3,b4],[c1,c2,c3,c4],[d1,d2,d3,d4]] s 4) 2).board.flatten = [d4, d3, d2, d1, c4, c3, c2, c1, b4, b3, b2, b1, a4, a3, a2, a1] from rfl,
        show ([[a1,a2,a3,a4],[b1,b2,b3,b4],[c1,c2,c3,c4],[d1,d2,d3,d4]] :
          List (List Nat)).flatten = [a1, a2, a3, a4, b1, b2, b3, b4, c1, c2, c3, c4, d1, d2, d3, d4] from rfl]
      simp only [List.count_cons, List.count_nil]
      ring
    · apply Multiset.coe_eq_coe.mpr
      apply List.perm_iff_count.mpr
      intro v
      rw [show (mirror (rotate (Game.mk [[a1,a2,a3,a4],[b1,b2,b3,b4],[c1,c2,c3,c4],[d1,d2,d3,d4]] s 4) 2)).board.flatten = [a4, a3, a2, a1, b4, b3, b2, b1, c4, c3, c2, c1, d4, d3, d2, d1] from rfl,
        show ([[a1,a2,a3,a4],[b1,b2,b3,b4],[c1,c2,c3,c4],[d1,d2,d3,d4]] :
          List (List Nat)).flatten = [a1, a2, a3, a4, b1, b2, b3, b4, c1, c2, c3, c4, d1, d2, d3, d4] from rfl]
      simp only [List.count_cons, List.count_nil]
      ring
    · apply Multiset.coe_eq_coe.mpr
      apply List.perm_iff_count.mpr
      intro v
      rw [show (rotate (Game.mk [[a1,a2,a3,a4],[b1,b2,b3,b4],[c1,c2,c3,c4],[d1,d2,d3,d4]] s 4) 3).board.flatten = [a4, b4, c4, d4, a3, b3, c3, d3, a2, b2, c2, d2, a1, b1, c1, d1] from rfl,
        show ([[a1,a2,a3,a4],[b1,b2,b3,b4],[c1,c2,c3,c4],[d1,d2,d3,d4]] :
          List (List Nat)).flatten = [a1, a2, a3, a4, b1, b2, b3, b4, c1, c2, c3, c4, d1, d2, d3, d4] from rfl]
      simp only [List.count_cons, List.count_nil]
      ring
    · apply Multiset.coe_eq_coe.mpr
      apply List.perm_iff_count.mpr
      intro v
      rw [show (mirror (rotate (Game.mk [[a1,a2,a3,a4],[b1,b2,b3,b4],[c1,c2,c3,c4],[d1,d2,d3,d4]] s 4) 3)).board.flatten = [a1, b1, c1, d1, a2, b2, c2, d2, a3, b3, c3, d3, a4, b4, c4, d4] from rfl,
        show ([[a1,a2,a3,a4],[b1,b2,b3,b4],[c1,c2,c3,c4],[d1,d2,d3,d4]] :
          List (List Nat)).flatten = [a1, a2, a3, a4, b1, b2, b3, b4, c1, c2, c3, c4, d1, d2, d3, d4] from rfl]
      simp only [List.count_cons, List.count_nil]
      ring

/-- Witness for C4 on a concrete board. -/
theorem c4_symmetries_witness :
    (symmetries (Game.mk [[2,4,8,16],[0,2,0,0],[0,0,2,0],[4,0,0,2]] 0 4)).length = 8 ∧
    symmetries (Game.mk [[2,4,8,16],[0,2,0,0],[0,0,2,0],[4,0,0,2]] 0 4) =
      [Game.mk [[2,4,8,16],[0,2,0,0],[0,0,2,0],[4,0,0,2]] 0 4,
       mirror (Game.mk [[2,4,8,16],[0,2,0,0],[0,0,2,0],[4,0,0,2]] 0 4),
       rotate (Game.mk [[2,4,8,16],[0,2,0,0],[0,0,2,0],[4,0,0,2]] 0 4) 1,
       mirror (rotate (Game.mk [[2,4,8,16],[0,2,0,0],[0,0,2,0],[4,0,0,2]] 0 4) 1),
       rotate (Game.mk [[2,4,8,16],[0,2,0,0],[0,0,2,0],[4,0,0,2]] 0 4) 2,
       mirror (rotate (Game.mk [[2,4,8,16],[0,2,0,0],[0,0,2,0],[4,0,0,2]] 0 4) 2),
       rotate (Game.mk [[2,4,8,16],[0,2,0,0],[0,0,2,0],[4,0,0,2]] 0 4) 3,
       mirror (rotate (Game.mk [[2,4,8,16],[0,2,0,0],[0,0,2,0],[4,0,0,2]] 0 4) 3)] ∧
    (mirror (Game.mk [[2,4,8,16],[0,2,0,0],[0,0,2,0],[4,0,0,2]] 0 4)).board =
      (Game.mk [[2,4,8,16],[0,2,0,0],[0,0,2,0],[4,0,0,2]] 0 4).board.reverse ∧
    (∀ i j : Fin 4,
      (((rotate (Game.mk [[2,4,8,16],[0,2,0,0],[0,0,2,0],[4,0,0,2]] 0 4) 1).board.getD i
          []).getD j 0) =
        (((Game.mk [[2,4,8,16],[0,2,0,0],[0,0,2,0],[4,0,0,2]] 0 4).board.getD
          (3 - (j : Nat)) []).getD i 0)) ∧
    (∀ s ∈ symmetries (Game.mk [[2,4,8,16],[0,2,0,0],[0,0,2,0],[4,0,0,2]] 0 4),
      (s.board.flatten : Multiset Nat) =
        ((Game.mk [[2,4,8,16],[0,2,0,0],[0,0,2,0],[4,0,0,2]] 0 4).board.flatten :
          Multiset Nat)) :=
  c4_symmetries (Game.mk [[2,4,8,16],[0,2,0,0],[0,0,2,0],[4,0,0,2]] 0 4) rfl rfl (by decide)

/- ============================================================
   C3 — the TD update
   ============================================================ -/

/-- The LUT fold of `learn_evaluation` leaves a key unchanged when no
listed n-tuple writes to it. -/
theorem lut_fold_untouched (g0 : Game) (δ : ℚ) :
    ∀ (l : List Ntuple) (lut : Ntuple → List Nat → ℚ) (nt : Ntuple) (f : List Nat),
      (∀ nt2 ∈ l, ¬(nt = nt2 ∧ f = feature nt2 g0)) →
      (l.foldl (fun lut nt =>
        fun nt2 f2 => if nt2 = nt ∧ f2 = feature nt g0 then
          lut nt (feature nt g0) + δ
        else lut nt2 f2) lut) nt f = lut nt f
  | [], lut, nt, f, _ => rfl
  | hd :: tl, lut, nt, f, h => by
    rw [List.foldl_cons,
      lut_fold_untouched g0 δ tl _ nt f (fun nt2 h2 => h nt2 (List.mem_cons_of_mem hd h2))]
    exact if_neg (h hd (List.mem_cons_self hd tl))

/-- The LUT fold of `learn_evaluation` adds `δ` to the entry of each
listed n-tuple at the feature of the afterstate (the n-tuples being
pairwise distinct, each entry is written exactly once and the value read
inside the loop is the pre-loop one). -/
theorem lut_fold_lookup (g0 : Game) (δ : ℚ) :
    ∀ (l : List Ntuple) (lut : Ntuple → List Nat → ℚ) (nt : Ntuple),
      l.Nodup → nt ∈ l →
      (l.foldl (fun lut nt =>
        fun nt2 f2 => if nt2 = nt ∧ f2 = feature nt g0 then
          lut nt (feature nt g0) + δ
        else lut nt2 f2) lut) nt (feature nt g0) = lut nt (feature nt g0) + δ
  | hd :: tl, lut, nt, hnd, hmem => by
    rw [List.foldl_cons]
    rcases List.mem_cons.mp hmem with rfl | hmem2
    · have hnot : nt ∉ tl := (List.nodup_cons.mp hnd).1
      rw [lut_fold_untouched g0 δ tl _ nt (feature nt g0)
        (fun nt2 h2 hc => hnot (hc.1 ▸ h2))]
      simp
    · have hne : nt ≠ hd := by
        rintro rfl
        exact (List.nodup_cons.mp hnd).1 hmem2
      rw [lut_fold_lookup g0 δ tl _ nt (List.nodup_cons.mp hnd).2 hmem2]
      have : ¬(nt = hd ∧ feature nt g0 = feature hd g0) := fun hc => hne hc.1
      rw [if_neg this]

/-- A fresh agent values every state at 0: all 64 summed weights default
to 0. -/
theorem evaluate_state_fresh (g : Game) : evaluate_state TdLearningAgent.fresh g = 0 := by
  simp [evaluate_state, evaluate_feature, TdLearningAgent.fresh, List.map_const',
    List.sum_replicate]

/-- C3: in the end-of-episode learning loop of `play_game`, a history
entry is skipped exactly when its `next_state` is terminal; on a
non-terminal entry whose greedy best action is `a`, the update succeeds
and sets, for each of the m n-tuples, `LUT[ntuple][feature(afterstate)]`
to its previous value plus `(learning_rate / m) * (next_reward +
evaluate_state(next_afterstate) - evaluate_state(afterstate))`, where
`(next_afterstate, next_reward) = compute_afterstate(next_state, a)`,
leaving every entry not of that form unchanged. -/
theorem c3_td_update (ag : TdLearningAgent) (afterstate next_state : Game) :
    (next_state.is_game_over = true → learn_step ag (afterstate, next_state) = Except.ok ag) ∧
    (∀ a, next_state.is_game_over = false → get_best_action ag next_state = some a →
      ∃ ag2, learn_step ag (afterstate, next_state) = Except.ok ag2 ∧
        ag2.learning_rate = ag.learning_rate ∧
        (∀ nt ∈ ntuples, ag2.LUT nt (feature nt afterstate) =
          ag.LUT nt (feature nt afterstate) +
            ag.learning_rate / (ntuples.length : ℚ) *
              (((compute_afterstate next_state a).2 : ℚ) +
                evaluate_state ag (compute_afterstate next_state a).1 -
                evaluate_state ag afterstate)) ∧
        (∀ nt f, (∀ nt2 ∈ ntuples, ¬(nt = nt2 ∧ f = feature nt2 afterstate)) →
          ag2.LUT nt f = ag.LUT nt f)) := by
  constructor
  · intro h
    simp [learn_step, h]
  · intro a hterm hbest
    refine ⟨{ ag with LUT := ntuples.foldl (fun lut nt =>
        fun nt2 f2 => if nt2 = nt ∧ f2 = feature nt afterstate then
          lut nt (feature nt afterstate) +
            ag.learning_rate / (ntuples.length : ℚ) *
              (((compute_afterstate next_state a).2 : ℚ) +
                evaluate_state ag (compute_afterstate next_state a).1 -
                evaluate_state ag afterstate)
        else lut nt2 f2) ag.LUT }, ?_, rfl, ?_, ?_⟩
    · simp [learn_step, hterm, learn_evaluation, hbest]
    · intro nt hnt
      exact lut_fold_lookup afterstate _ ntuples ag.LUT nt (by decide) hnt
    · intro nt f hf
      exact lut_fold_untouched afterstate _ ntuples ag.LUT nt f hf

/-- Witness for C3: a concrete non-terminal next state (greedy best
action RIGHT) and a concrete afterstate, updated from a fresh agent. -/
theorem c3_td_update_witness :
    (Game.mk [[4,2,0,0],[0,0,0,0],[0,0,0,0],[0,0,0,0]] 4 4).is_game_over = false ∧
    get_best_action TdLearningAgent.fresh
      (Game.mk [[4,2,0,0],[0,0,0,0],[0,0,0,0],[0,0,0,0]] 4 4) = some Direction.RIGHT ∧
    (∃ ag2, learn_step TdLearningAgent.fresh
        (Game.mk [[4,0,0,0],[0,0,0,0],[0,0,0,0],[0,0,0,0]] 4 4,
         Game.mk [[4,2,0,0],[0,0,0,0],[0,0,0,0],[0,0,0,0]] 4 4) = Except.ok ag2 ∧
      ag2.learning_rate = TdLearningAgent.fresh.learning_rate ∧
      (∀ nt ∈ ntuples, ag2.LUT nt
          (feature nt (Game.mk [[4,0,0,0],[0,0,0,0],[0,0,0,0],[0,0,0,0]] 4 4)) =
        TdLearningAgent.fresh.LUT nt
            (feature nt (Game.mk [[4,0,0,0],[0,0,0,0],[0,0,0,0],[0,0,0,0]] 4 4)) +
          TdLearningAgent.fresh.learning_rate / (ntuples.length : ℚ) *
            (((compute_afterstate (Game.mk [[4,2,0,0],[0,0,0,0],[0,0,0,0],[0,0,0,0]] 4 4)
                Direction.RIGHT).2 : ℚ) +
              evaluate_state TdLearningAgent.fresh
                (compute_afterstate (Game.mk [[4,2,0,0],[0,0,0,0],[0,0,0,0],[0,0,0,0]] 4 4)
                  Direction.RIGHT).1 -
              evaluate_state TdLearningAgent.fresh
                (Game.mk [[4,0,0,0],[0,0,0,0],[0,0,0,0],[0,0,0,0]] 4 4))) ∧
      (∀ nt f, (∀ nt2 ∈ ntuples,
          ¬(nt = nt2 ∧
            f = feature nt2 (Game.mk [[4,0,0,0],[0,0,0,0],[0,0,0,0],[0,0,0,0]] 4 4))) →
        ag2.LUT nt f = TdLearningAgent.fresh.LUT nt f)) := by
  have hbest : get_best_action TdLearningAgent.fresh
      (Game.mk [[4,2,0,0],[0,0,0,0],[0,0,0,0],[0,0,0,0]] 4 4) = some Direction.RIGHT := by
    have e1 : ((compute_afterstate
        (Game.mk [[4,2,0,0],[0,0,0,0],[0,0,0,0],[0,0,0,0]] 4 4) Direction.RIGHT).2 : ℚ) = 0 := by
      norm_num [show (compute_afterstate
        (Game.mk [[4,2,0,0],[0,0,0,0],[0,0,0,0],[0,0,0,0]] 4 4) Direction.RIGHT).2 = 0 from rfl]
    have e2 : ((compute_afterstate
        (Game.mk [[4,2,0,0],[0,0,0,0],[0,0,0,0],[0,0,0,0]] 4 4) Direction.DOWN).2 : ℚ) = 0 := by
      norm_num [show (compute_afterstate
        (Game.mk [[4,2,0,0],[0,0,0,0],[0,0,0,0],[0,0,0,0]] 4 4) Direction.DOWN).2 = 0 from rfl]
    simp only [get_best_action,
      show (Game.mk [[4,2,0,0],[0,0,0,0],[0,0,0,0],[0,0,0,0]] 4 4).get_legal_moves =
        [Direction.RIGHT, Direction.DOWN] from rfl,
      List.foldl_cons, List.foldl_nil, evaluate_action, evaluate_state_fresh, e1, e2]
    norm_num
  exact ⟨by decide, hbest,
    (c3_td_update TdLearningAgent.fresh
      (Game.mk [[4,0,0,0],[0,0,0,0],[0,0,0,0],[0,0,0,0]] 4 4)
      (Game.mk [[4,2,0,0],[0,0,0,0],[0,0,0,0],[0,0,0,0]] 4 4)).2
      Direction.RIGHT (by decide) hbest⟩

/- ============================================================
   C9 — the expectimax chance node
   ============================================================ -/

/-- The chance-node accumulation, rewritten as a sum over the considered
cells with the probability `1/k` factored per cell. -/
theorem chance_fold_sum (ag : ExpectimaxAgent) (g : Game) (rem : Nat) (k : ℚ) :
    ∀ (l : List (Nat × Nat)) (init : ℚ),
      l.foldl (fun acc p =>
        acc + (9 / 10) * (1 / k) * expectimax ag (place g p 2) (rem - 1) 0 +
          (if 1 < rem then
            (1 / 10) * (1 / k) * expectimax ag (place g p 4) (rem - 1) 0
          else
            (1 / 10) * (1 / k) * expectimax ag (place g p 2) (rem - 1) 0 * (12 / 10))) init =
      init + (l.map (fun p =>
        (1 / k) * ((9 / 10) * expectimax ag (place g p 2) (rem - 1) 0 +
          (if 1 < rem then (1 / 10) * expectimax ag (place g p 4) (rem - 1) 0
           else (1 / 10) * expectimax ag (place g p 2) (rem - 1) 0 * (12 / 10))))).sum
  | [], init => by simp
  | p :: l, init => by
    rw [List.foldl_cons, chance_fold_sum ag g rem k l _, List.map_cons, List.sum_cons]
    split_ifs <;> ring

/-- Counterexample to C9 as stated: with depth limit 2, a chance node at
the deepest level (`rem = 1`) on a board with one empty cell does not
equal the claimed expectation `1/k · (0.9·val2 + 0.1·val4)`; the code
replaces the tile-4 branch by the approximation `0.1 · val2 · 1.2`
there.  Here `val2 = 0` and `val4 = 8`, so the code yields 0 while the
claimed expectation is `0.8`. -/
theorem c9_counterexample :
    chance_value ⟨2⟩ (Game.mk [[2,4,2,4],[4,2,4,2],[2,4,2,4],[4,2,4,0]] 0 4) 1 ≠
      ((considered_cells (Game.mk [[2,4,2,4],[4,2,4,2],[2,4,2,4],[4,2,4,0]] 0 4)).map
        (fun p =>
          (1 / ((considered_cells
              (Game.mk [[2,4,2,4],[4,2,4,2],[2,4,2,4],[4,2,4,0]] 0 4)).length : ℚ)) *
            ((9 / 10) * expectimax ⟨2⟩
                (place (Game.mk [[2,4,2,4],[4,2,4,2],[2,4,2,4],[4,2,4,0]] 0 4) p 2) 0 0 +
              (1 / 10) * expectimax ⟨2⟩
                (place (Game.mk [[2,4,2,4],[4,2,4,2],[2,4,2,4],[4,2,4,0]] 0 4) p 4) 0 0))).sum := by
  have h2 : expectimax ⟨2⟩
      (place (Game.mk [[2,4,2,4],[4,2,4,2],[2,4,2,4],[4,2,4,0]] 0 4) (3, 3) 2) 0 0 =
      ((0 : ℤ) : ℚ) := by
    simp only [expectimax]
    rw [dif_pos (Or.inr trivial)]
    rw [show exp_evaluate
      (place (Game.mk [[2,4,2,4],[4,2,4,2],[2,4,2,4],[4,2,4,0]] 0 4) (3, 3) 2) = 0 from rfl]
  have h4 : expectimax ⟨2⟩
      (place (Game.mk [[2,4,2,4],[4,2,4,2],[2,4,2,4],[4,2,4,0]] 0 4) (3, 3) 4) 0 0 =
      ((8 : ℤ) : ℚ) := by
    simp only [expectimax]
    rw [dif_pos (Or.inr trivial)]
    rw [show exp_evaluate
      (place (Game.mk [[2,4,2,4],[4,2,4,2],[2,4,2,4],[4,2,4,0]] 0 4) (3, 3) 4) = 8 from rfl]
  have hc : considered_cells (Game.mk [[2,4,2,4],[4,2,4,2],[2,4,2,4],[4,2,4,0]] 0 4) =
      [(3, 3)] := rfl
  simp only [chance_value, hc]
  rw [if_neg (by decide :
    ¬ (Game.mk [[2,4,2,4],[4,2,4,2],[2,4,2,4],[4,2,4,0]] 0 4).get_empty_tiles = [])]
  simp only [hc, List.foldl_cons, List.foldl_nil, List.map_cons, List.map_nil,
    List.sum_cons, List.sum_nil, List.length_cons, List.length_nil, h2, h4]
  norm_num

/-- C9 (amended): on a board with at least one empty cell, the chance
node's value is the expectation over the considered cells (all empties,
capped at 4 with corner/edge priority when more than 4 are empty), each
with probability `1/k` for `k` the number of considered cells, of
`0.9` times the search value with a 2 placed plus — only above the
deepest chance level — `0.1` times the search value with a 4 placed; at
the deepest level (`rem ≤ 1`, i.e. `depth = depth_limit - 1`) the tile-4
term is approximated by `0.1` times the tile-2 value times `1.2`. -/
theorem c9_chance_value (ag : ExpectimaxAgent) (g : Game) (rem : Nat)
    (hne : g.get_empty_tiles ≠ []) :
    chance_value ag g rem =
      ((considered_cells g).map (fun p =>
        (1 / ((considered_cells g).length : ℚ)) *
          ((9 / 10) * expectimax ag (place g p 2) (rem - 1) 0 +
            (if 1 < rem then (1 / 10) * expectimax ag (place g p 4) (rem - 1) 0
             else (1 / 10) * expectimax ag (place g p 2) (rem - 1) 0 * (12 / 10))))).sum := by
  simp only [chance_value]
  rw [if_neg hne, chance_fold_sum ag g rem ((considered_cells g).length : ℚ)
    (considered_cells g) 0, zero_add]

/-- Witness for C9 (amended) at the concrete deepest-level chance node of
the counterexample board. -/
theorem c9_chance_value_witness :
    chance_value ⟨2⟩ (Game.mk [[2,4,2,4],[4,2,4,2],[2,4,2,4],[4,2,4,0]] 0 4) 1 =
      ((considered_cells (Game.mk [[2,4,2,4],[4,2,4,2],[2,4,2,4],[4,2,4,0]] 0 4)).map
        (fun p =>
          (1 / ((considered_cells
              (Game.mk [[2,4,2,4],[4,2,4,2],[2,4,2,4],[4,2,4,0]] 0 4)).length : ℚ)) *
            ((9 / 10) * expectimax ⟨2⟩
                (place (Game.mk [[2,4,2,4],[4,2,4,2],[2,4,2,4],[4,2,4,0]] 0 4) p 2) 0 0 +
              (if 1 < 1 then
                (1 / 10) * expectimax ⟨2⟩
                  (place (Game.mk [[2,4,2,4],[4,2,4,2],[2,4,2,4],[4,2,4,0]] 0 4) p 4) 0 0
               else
                (1 / 10) * expectimax ⟨2⟩
                  (place (Game.mk [[2,4,2,4],[4,2,4,2],[2,4,2,4],[4,2,4,0]] 0 4) p 2) 0 0 *
                  (12 / 10))))).sum :=
  c9_chance_value ⟨2⟩ (Game.mk [[2,4,2,4],[4,2,4,2],[2,4,2,4],[4,2,4,0]] 0 4) 1 (by decide)
